import Mathlib

/-!
# Verification of the firebase-lucid ODM core

A shallow embedding of the entity-mapping and query/relation engine of the
firebase-lucid repository: the `Model` entity mapper (create / createWithId /
save / delete / hydrate / dirty tracking), the `HookManager`, the
`QueryBuilder` chunked batch writes, the `ManyToMany.detach` pivot operation,
and the `PreloadManager` batched relation loaders, together with the lazy
`BelongsTo.get` path.

JavaScript runtime values are modelled by `Value`; object identity of
`Date` / `Timestamp` objects is tracked with an explicit allocation reference
so that JavaScript strict (in)equality `!==` — which compares objects by
reference — is captured faithfully.  Store reads and writes are explicit;
`Timestamp.now()` reads an ambient clock threaded through a `World` record.
-/

set_option linter.unusedVariables false

namespace FirebaseLucid

/-- JavaScript runtime values occurring in the engine.  `vTimestamp` is a
Firestore `Timestamp` object and `vDate` a JavaScript `Date` object; both
carry an allocation reference `ref` (object identity) next to their epoch
milliseconds, because JavaScript compares objects by reference. -/
inductive Value where
  | vUndefined
  | vNull
  | vBool (b : Bool)
  | vInt (n : Int)
  | vStr (s : String)
  | vTimestamp (ref : Nat) (millis : Nat)
  | vDate (ref : Nat) (millis : Nat)
  deriving Repr, DecidableEq

namespace Value

/-- JavaScript strict equality `===` (also `Map` key equality, SameValueZero):
primitives by value, objects (`Timestamp`, `Date`) by reference. -/
def strictEq : Value → Value → Bool
  | vUndefined, vUndefined => true
  | vNull, vNull => true
  | vBool a, vBool b => a == b
  | vInt a, vInt b => a == b
  | vStr a, vStr b => a == b
  | vTimestamp r _, vTimestamp r' _ => r == r'
  | vDate r _, vDate r' _ => r == r'
  | _, _ => false

/-- `v == null` in JavaScript (loose): true exactly for `null` and
`undefined`. -/
def isNullish : Value → Bool
  | vNull => true
  | vUndefined => true
  | _ => false

/-- JavaScript truthiness test `!v`: `undefined`, `null`, `false`, `0` and
`""` are falsy; objects are always truthy. -/
def jsFalsy : Value → Bool
  | vUndefined => true
  | vNull => true
  | vBool b => !b
  | vInt n => n == 0
  | vStr s => s == ""
  | vTimestamp _ _ => false
  | vDate _ _ => false

/-- Firestore `==` predicate semantics: by stored value.  Timestamps (and
dates, which the SDK converts to timestamps) compare by their instant. -/
def fsEq : Value → Value → Bool
  | vNull, vNull => true
  | vBool a, vBool b => a == b
  | vInt a, vInt b => a == b
  | vStr a, vStr b => a == b
  | vTimestamp _ m, vTimestamp _ m' => m == m'
  | vDate _ m, vDate _ m' => m == m'
  | vTimestamp _ m, vDate _ m' => m == m'
  | vDate _ m, vTimestamp _ m' => m == m'
  | _, _ => false

/-- Coercion of a value to a JavaScript object-property key string (as done
implicitly by `result[groupKey]` in the `groupBy` utility). -/
def keyOf : Value → String
  | vUndefined => "undefined"
  | vNull => "null"
  | vBool b => toString b
  | vInt n => toString n
  | vStr s => s
  | vTimestamp _ m => "ts:" ++ toString m
  | vDate _ m => "date:" ++ toString m

@[simp] theorem strictEq_refl_str (s : String) : strictEq (vStr s) (vStr s) = true := by
  simp [strictEq]

end Value

open Value

/-- A JavaScript object with enumerable string-keyed properties, in insertion
order (as JavaScript objects preserve it).  Keys are unique in every object
the engine builds, so lookup/overwrite are modelled by first-match
recursion. -/
abbrev Obj := List (String × Value)

namespace Obj

/-- Property read that distinguishes a missing key (`none`). -/
def getField : Obj → String → Option Value
  | [], _ => none
  | (k', v) :: t, k => if k' = k then some v else getField t k

/-- JavaScript property access `o[k]`: a missing property reads as
`undefined`. -/
def jsGet (o : Obj) (k : String) : Value :=
  (getField o k).getD .vUndefined

/-- JavaScript property write `o[k] = v`: overwrite in place if the key
exists (keeping its position), otherwise append. -/
def setField : Obj → String → Value → Obj
  | [], k, v => [(k, v)]
  | (k', w) :: t, k, v => if k' = k then (k, v) :: t else (k', w) :: setField t k v

/-- JavaScript `delete o[k]`. -/
def removeField (o : Obj) (k : String) : Obj :=
  List.filter (fun p => !(p.1 == k)) o

/-- `Object.assign(target, src)` / object spread: every property of `src` is
written onto `target` in order, later entries winning. -/
def assignObj (target src : Obj) : Obj :=
  src.foldl (fun acc p => setField acc p.1 p.2) target

@[simp] theorem getField_nil (k : String) : getField ([] : Obj) k = none := rfl

@[simp] theorem getField_setField_self (o : Obj) (k : String) (v : Value) :
    getField (setField o k v) k = some v := by
  induction o with
  | nil => simp [setField, getField]
  | cons p t ih =>
    obtain ⟨k', w⟩ := p
    by_cases h : k' = k <;> simp [setField, getField, h, ih]

theorem getField_setField_ne (o : Obj) (k k' : String) (v : Value) (h : k' ≠ k) :
    getField (setField o k v) k' = getField o k' := by
  induction o with
  | nil => simp [setField, getField, Ne.symm h]
  | cons p t ih =>
    obtain ⟨k₀, w⟩ := p
    by_cases h0 : k₀ = k
    · subst h0
      simp [setField, getField, Ne.symm h]
    · by_cases h1 : k₀ = k' <;> simp [setField, getField, h0, h1, h, ih]

theorem getField_mem_keys {o : Obj} {k : String} {v : Value}
    (h : getField o k = some v) : k ∈ o.map Prod.fst := by
  induction o with
  | nil => simp [getField] at h
  | cons p t ih =>
    obtain ⟨k₀, w⟩ := p
    by_cases hk : k₀ = k
    · simp [hk]
    · simp only [getField, hk, if_false] at h
      simp [ih h]

/-- Reading an `assignObj` result when `src` has no duplicate keys (true of
every real JavaScript object): properties of `src` win, `target` is the
fallback. -/
theorem getField_assignObj (target src : Obj) (hnd : (src.map Prod.fst).Nodup)
    (k : String) :
    getField (assignObj target src) k =
      match getField src k with
      | some v => some v
      | none => getField target k := by
  induction src generalizing target with
  | nil => simp [assignObj, getField]
  | cons p t ih =>
    obtain ⟨k₀, w⟩ := p
    simp only [List.map_cons, List.nodup_cons] at hnd
    show getField (assignObj (setField target k₀ w) t) k = _
    rw [ih _ hnd.2]
    by_cases hk : k₀ = k
    · subst hk
      cases hf : getField t k₀ with
      | some v => exact absurd (getField_mem_keys hf) hnd.1
      | none => simp [getField]
    · cases hf : getField t k <;>
        simp [hf, getField, hk, getField_setField_ne _ _ _ _ (Ne.symm hk)]

theorem jsGet_assignObj (target src : Obj) (hnd : (src.map Prod.fst).Nodup)
    (k : String) :
    jsGet (assignObj target src) k =
      match getField src k with
      | some v => v
      | none => jsGet target k := by
  unfold jsGet
  rw [getField_assignObj _ _ hnd]
  cases getField src k <;> simp

end Obj

open Obj

/-! ## List utilities (`src/Database/utils/groupBy.ts` and the inline
batching loop of `QueryBuilder.executeBatches`) -/

/-- Structural worker for `chunkList`, with the list length as fuel so that
the definition evaluates by iota reduction (one chunk consumes at least one
element, so the fuel never runs out when it starts at the length). -/
def chunkListGo (size : Nat) : Nat → List α → List (List α)
  | _, [] => []
  | 0, _ :: _ => []
  | fuel + 1, x :: rest =>
    if size = 0 then []
    else ((x :: rest).take size) :: chunkListGo size fuel (rest.drop (size - 1))

/-- The chunking loop `for (let i = 0; i < array.length; i += size)` shared by
the `chunk` utility and `QueryBuilder.executeBatches`: consecutive slices of
at most `size` elements.  The loop only runs with a positive `size`
(`chunk` throws on `size <= 0`, `executeBatches` uses the literal 500), so
`size = 0` is mapped to the empty result here. -/
def chunkList (size : Nat) (xs : List α) : List (List α) :=
  chunkListGo size xs.length xs

/-- The fuel of `chunkListGo` is irrelevant as long as it covers the list
length. -/
theorem chunkListGo_fuel (size : Nat) (hs : size ≠ 0) :
    ∀ (fuel : Nat) (xs : List α), xs.length ≤ fuel →
      chunkListGo size fuel xs = chunkListGo size xs.length xs := by
  intro fuel
  induction fuel using Nat.strong_induction_on with
  | _ fuel ih =>
    intro xs hxs
    cases xs with
    | nil => cases fuel <;> rfl
    | cons x rest =>
      cases fuel with
      | zero => simp at hxs
      | succ fuel' =>
        simp only [List.length_cons] at hxs
        show chunkListGo size (fuel' + 1) (x :: rest) =
          chunkListGo size (rest.length + 1) (x :: rest)
        unfold chunkListGo
        rw [if_neg hs, if_neg hs]
        congr 1
        rw [ih fuel' (by omega) (rest.drop (size - 1))
          (by simp only [List.length_drop]; omega)]
        rw [ih rest.length (by omega) (rest.drop (size - 1))
          (by simp only [List.length_drop]; omega)]

/-- `chunk(array, size)` from `utils/groupBy.ts`: throws
`"Chunk size must be greater than 0"` on a non-positive size, otherwise
produces the consecutive chunks. -/
def chunk (xs : List α) (size : Nat) : Except String (List (List α)) :=
  if size = 0 then .error "Chunk size must be greater than 0"
  else .ok (chunkList size xs)

theorem chunk_pos (xs : List α) (size : Nat) (h : size ≠ 0) :
    chunk xs size = .ok (chunkList size xs) := by
  simp [chunk, h]

@[simp] theorem chunkList_nil (size : Nat) : chunkList size ([] : List α) = [] := rfl

/-- Unfolding of `chunkList` on a nonempty list with a positive size, phrased
with `List.drop size` on the whole list. -/
theorem chunkList_cons (size : Nat) (hs : size ≠ 0) (x : α) (rest : List α) :
    chunkList size (x :: rest) =
      (x :: rest).take size :: chunkList size ((x :: rest).drop size) := by
  show chunkListGo size (rest.length + 1) (x :: rest) = _
  unfold chunkListGo
  rw [if_neg hs]
  congr 1
  have hdrop : (x :: rest).drop size = rest.drop (size - 1) := by
    obtain ⟨k, rfl⟩ := Nat.exists_eq_succ_of_ne_zero hs
    simp [List.drop_succ_cons]
  rw [hdrop]
  exact chunkListGo_fuel size hs rest.length (rest.drop (size - 1))
    (by simp only [List.length_drop]; omega)

/-- Concatenating the chunks restores the original list (each element lands in
exactly one chunk, in order). -/
theorem chunkList_join (size : Nat) (hs : size ≠ 0) (xs : List α) :
    (chunkList size xs).flatten = xs := by
  match xs with
  | [] => simp
  | x :: rest =>
    rw [chunkList_cons size hs, List.flatten_cons,
      chunkList_join size hs ((x :: rest).drop size), List.take_append_drop]
  termination_by xs.length
  decreasing_by simp only [List.length_drop, List.length_cons]; omega

/-- Number of chunks: exactly `⌈n / size⌉`, written `(n + size - 1) / size`. -/
theorem chunkList_length (size : Nat) (hs : size ≠ 0) (xs : List α) :
    (chunkList size xs).length = (xs.length + size - 1) / size := by
  match xs with
  | [] =>
    simpa using (Nat.div_eq_of_lt (by omega)).symm
  | x :: rest =>
    rw [chunkList_cons size hs, List.length_cons,
      chunkList_length size hs ((x :: rest).drop size)]
    simp only [List.length_drop, List.length_cons]
    set n := rest.length + 1 with hn
    have hnpos : 0 < n := by omega
    by_cases hle : n ≤ size
    · have h1 : n - size = 0 := by omega
      rw [h1]
      have h2 : (0 + size - 1) / size = 0 := Nat.div_eq_of_lt (by omega)
      have h3 : (n + size - 1) / size = 1 := by
        rw [Nat.div_eq_of_lt_le] <;> omega
      omega
    · have h1 : n - size + size - 1 = (n - 1 - size) + size := by omega
      have h2 : n + size - 1 = (n - 1) + size := by omega
      rw [h1, h2, Nat.add_div_right _ (by omega), Nat.add_div_right _ (by omega)]
      have h4 : n - 1 = (n - 1 - size) + size := by omega
      have h5 : (n - 1) / size = (n - 1 - size) / size + 1 := by
        conv_lhs => rw [h4]
        rw [Nat.add_div_right _ (by omega)]
      omega
  termination_by xs.length
  decreasing_by simp only [List.length_drop, List.length_cons]; omega

/-- Every chunk is nonempty and holds at most `size` elements. -/
theorem chunkList_mem_length (size : Nat) (hs : size ≠ 0) (xs : List α)
    {c : List α} (hc : c ∈ chunkList size xs) : 0 < c.length ∧ c.length ≤ size := by
  match xs with
  | [] => simp at hc
  | x :: rest =>
    rw [chunkList_cons size hs, List.mem_cons] at hc
    rcases hc with hc | hc
    · subst hc
      constructor
      · simp only [List.length_take, List.length_cons]
        omega
      · simp
    · exact chunkList_mem_length size hs ((x :: rest).drop size) hc
  termination_by xs.length
  decreasing_by simp only [List.length_drop, List.length_cons]; omega

/-- `[...new Set(xs)]`: deduplication keeping first occurrences in order. -/
def jsSetDedup [DecidableEq α] (xs : List α) : List α :=
  xs.foldl (fun acc x => if x ∈ acc then acc else acc ++ [x]) []

theorem mem_foldl_dedup [DecidableEq α] (xs : List α) (acc : List α) (y : α) :
    y ∈ xs.foldl (fun acc x => if x ∈ acc then acc else acc ++ [x]) acc ↔
      y ∈ acc ∨ y ∈ xs := by
  induction xs generalizing acc with
  | nil => simp
  | cons x t ih =>
    rw [List.foldl_cons, ih]
    by_cases hx : x ∈ acc
    · simp only [hx, if_true, List.mem_cons]
      constructor
      · rintro (h | h)
        · exact Or.inl h
        · exact Or.inr (Or.inr h)
      · rintro (h | h | h)
        · exact Or.inl h
        · exact Or.inl (h ▸ hx)
        · exact Or.inr h
    · simp only [hx, if_false, List.mem_append, List.mem_singleton, List.mem_cons]
      tauto

theorem mem_jsSetDedup [DecidableEq α] (xs : List α) (y : α) :
    y ∈ jsSetDedup xs ↔ y ∈ xs := by
  unfold jsSetDedup
  rw [mem_foldl_dedup]
  simp

theorem jsSetDedup_nodup [DecidableEq α] (xs : List α) : (jsSetDedup xs).Nodup := by
  suffices h : ∀ acc : List α, acc.Nodup →
      (xs.foldl (fun acc x => if x ∈ acc then acc else acc ++ [x]) acc).Nodup from
    h [] List.nodup_nil
  induction xs with
  | nil => intro acc h; simpa using h
  | cons x t ih =>
    intro acc hacc
    rw [List.foldl_cons]
    by_cases hx : x ∈ acc
    · simpa [hx] using ih acc hacc
    · refine ih _ ?_
      simp only [hx, if_false]
      simp [List.nodup_append, hacc, hx]

/-- JavaScript `Map` built by iterating `set` then queried with `get`: the
last entry written for a key wins; key equality is SameValueZero
(`Value.strictEq`). -/
def lookupLast (entries : List (Value × α)) (k : Value) : Option α :=
  (entries.reverse.find? (fun p => Value.strictEq p.1 k)).map (·.2)

/-- One step of the `groupBy` reduce from `utils/groupBy.ts`: skip the item
when its key value is `null`/`undefined`, append it to its (string-coerced)
group if one exists, otherwise open a new group. -/
def groupByStep (keyVal : α → Value) (acc : List (String × List α)) (item : α) :
    List (String × List α) :=
  let g := keyVal item
  if g.isNullish then acc
  else
    match (acc.find? (fun p => p.1 == g.keyOf)) with
    | some _ => acc.map (fun p => if p.1 == g.keyOf then (p.1, p.2 ++ [item]) else p)
    | none => acc ++ [(g.keyOf, [item])]

/-- `groupBy(array, key)` from `utils/groupBy.ts`: groups by the (string-
coerced) value of `item[key]`, skipping items whose key value is
`null`/`undefined`; insertion order of items inside a group is preserved.
`keyVal` is the property read `item[key]` for the item representation in
use (plain objects read with `jsGet`, hydrated instances with
`hydratedKey`). -/
def groupBy (xs : List α) (keyVal : α → Value) : List (String × List α) :=
  xs.foldl (groupByStep keyVal) []

/-- Reading `groups[g]` at an already-coerced string key. -/
def lookupGroupStr (groups : List (String × List α)) (g : String) : List α :=
  ((groups.find? (fun p => p.1 == g)).map (·.2)).getD []

/-- Reading `groups[v]` (property access coerces `v` to a string). -/
def lookupGroup (groups : List (String × List α)) (v : Value) : List α :=
  lookupGroupStr groups v.keyOf

/-! ## The document store collaborator and the ambient world

The Firestore collaborator of §6 of the spec: a flat set of
`(collection, documentId, fields)` triples plus the generator for
store-assigned identifiers.  `Timestamp.now()` reads an ambient clock
(`clock` applied to a running `tick` counter — two successive reads may
return different instants), and every `Timestamp`/`Date` object allocation
draws a fresh reference from `nextRef`. -/

structure World where
  store : List (String × String × Obj)
  nextAutoId : Nat
  clock : Nat → Nat
  tick : Nat
  nextRef : Nat

namespace World

/-- `Timestamp.now()`: a fresh `Timestamp` object holding the current clock
reading. -/
def timestampNow (w : World) : Value × World :=
  (.vTimestamp w.nextRef (w.clock w.tick),
    { w with nextRef := w.nextRef + 1, tick := w.tick + 1 })

/-- `new Date()`: a fresh `Date` object holding the current clock reading. -/
def newDate (w : World) : Value × World :=
  (.vDate w.nextRef (w.clock w.tick),
    { w with nextRef := w.nextRef + 1, tick := w.tick + 1 })

/-- `Timestamp.prototype.toDate()`: allocates a fresh `Date` with the same
instant (each call returns a new object).  On a non-`Timestamp` value it is
never called by the engine; modelled as the identity there. -/
def toDate (v : Value) (w : World) : Value × World :=
  match v with
  | .vTimestamp _ m => (.vDate w.nextRef m, { w with nextRef := w.nextRef + 1 })
  | v => (v, w)

/-- `getDoc` by collection and document id (first match; document ids are
unique per collection in a real store). -/
def getDocIn (w : World) (coll id : String) : Option Obj :=
  (w.store.find? (fun d => d.1 == coll && d.2.1 == id)).map (·.2.2)

/-- `addDoc`: insert under a store-assigned fresh identifier. -/
def addDocIn (w : World) (coll : String) (fields : Obj) : String × World :=
  let id := "auto-" ++ toString w.nextAutoId
  (id, { w with store := w.store ++ [(coll, id, fields)],
                nextAutoId := w.nextAutoId + 1 })

/-- `setDoc`: create or fully overwrite the document at a caller-supplied
identifier. -/
def setDocIn (w : World) (coll id : String) (fields : Obj) : World :=
  if w.store.any (fun d => d.1 == coll && d.2.1 == id) then
    let f := fun (d : String × String × Obj) =>
      if d.1 == coll && d.2.1 == id then (coll, id, fields) else d
    { w with store := w.store.map f }
  else
    { w with store := w.store ++ [(coll, id, fields)] }

/-- `updateDoc`: merge the given fields over the stored document.  (The real
SDK rejects a missing document; no claim exercises that path, so the update
is simply a no-op there.) -/
def updateDocIn (w : World) (coll id : String) (fields : Obj) : World :=
  let f := fun (d : String × String × Obj) =>
    if d.1 == coll && d.2.1 == id then (coll, id, Obj.assignObj d.2.2 fields) else d
  { w with store := w.store.map f }

/-- `deleteDoc`. -/
def deleteDocIn (w : World) (coll id : String) : World :=
  { w with store := w.store.filter (fun d => !(d.1 == coll && d.2.1 == id)) }

end World

/-- Observable actions of one engine operation, in order: lifecycle hook
invocations, store primitives, atomic batch commits (with their operation
count) and the `console.error` logging of a swallowed after-hook failure. -/
inductive Event where
  | hookEvt (name : String)
  | addDocEvt (coll id : String)
  | setDocEvt (coll id : String)
  | updateDocEvt (coll id : String)
  | deleteDocEvt (coll id : String)
  | batchCommitEvt (ops : Nat)
  | logEvt (msg : String)
  deriving Repr, DecidableEq

/-- The hook invocations of a trace, in order. -/
def hookEvents (tr : List Event) : List String :=
  tr.filterMap (fun e => match e with | .hookEvt n => some n | _ => none)

/-! ## HookManager (`src/Database/Hooks/HookManager.ts`)

An application hook either returns normally or throws; the `Model` base class
defines every hook (as a no-op by default), so `callHook` always finds a
function and invokes it.  Hooks are modelled by their outcome — the ordering
and failure-propagation claims do not depend on hook-internal effects. -/

/-- The outcome of one application-defined hook invocation: `none` for a
normal return, `some e` for a thrown error `e`. -/
abbrev HookResult := Option String

structure Hooks where
  beforeCreate : HookResult
  afterCreate : HookResult
  beforeSave : HookResult
  afterSave : HookResult
  beforeUpdate : HookResult
  afterUpdate : HookResult
  beforeDelete : HookResult
  afterDelete : HookResult
  deriving Repr, DecidableEq

/-- Hooks that all return normally (e.g. hooks that only record their own
invocation). -/
def Hooks.allOk (h : Hooks) : Prop :=
  h.beforeCreate = none ∧ h.afterCreate = none ∧ h.beforeSave = none ∧
  h.afterSave = none ∧ h.beforeUpdate = none ∧ h.afterUpdate = none ∧
  h.beforeDelete = none ∧ h.afterDelete = none

instance (h : Hooks) : Decidable h.allOk := by unfold Hooks.allOk; infer_instance

/-- The pure no-op hooks of the `Model` base class. -/
def Hooks.noops : Hooks :=
  ⟨none, none, none, none, none, none, none, none⟩

namespace HookManager

/-- `executeBeforeCreate`: `beforeSave` then `beforeCreate`; a throw
propagates (aborting before the second hook when `beforeSave` throws). -/
def executeBeforeCreate (h : Hooks) : List Event × Option String :=
  match h.beforeSave with
  | some e => ([.hookEvt "beforeSave"], some e)
  | none =>
    match h.beforeCreate with
    | some e => ([.hookEvt "beforeSave", .hookEvt "beforeCreate"], some e)
    | none => ([.hookEvt "beforeSave", .hookEvt "beforeCreate"], none)

/-- `executeAfterCreate`: `afterCreate` then `afterSave { isNew: true }`
inside a `try`; an exception is logged and swallowed (skipping the second
hook when `afterCreate` throws). -/
def executeAfterCreate (h : Hooks) : List Event :=
  match h.afterCreate with
  | some _ => [.hookEvt "afterCreate", .logEvt "After create hook failed"]
  | none =>
    match h.afterSave with
    | some _ => [.hookEvt "afterCreate", .hookEvt "afterSave",
        .logEvt "After create hook failed"]
    | none => [.hookEvt "afterCreate", .hookEvt "afterSave"]

/-- `executeBeforeUpdate`: computes the dirty-field context, then `beforeSave`
then `beforeUpdate`; a throw propagates. -/
def executeBeforeUpdate (h : Hooks) : List Event × Option String :=
  match h.beforeSave with
  | some e => ([.hookEvt "beforeSave"], some e)
  | none =>
    match h.beforeUpdate with
    | some e => ([.hookEvt "beforeSave", .hookEvt "beforeUpdate"], some e)
    | none => ([.hookEvt "beforeSave", .hookEvt "beforeUpdate"], none)

/-- `executeAfterUpdate`: `afterUpdate` then `afterSave { isNew: false }`,
exceptions logged and swallowed. -/
def executeAfterUpdate (h : Hooks) : List Event :=
  match h.afterUpdate with
  | some _ => [.hookEvt "afterUpdate", .logEvt "After update hook failed"]
  | none =>
    match h.afterSave with
    | some _ => [.hookEvt "afterUpdate", .hookEvt "afterSave",
        .logEvt "After update hook failed"]
    | none => [.hookEvt "afterUpdate", .hookEvt "afterSave"]

/-- `executeBeforeDelete`: just `beforeDelete`; a throw propagates. -/
def executeBeforeDelete (h : Hooks) : List Event × Option String :=
  match h.beforeDelete with
  | some e => ([.hookEvt "beforeDelete"], some e)
  | none => ([.hookEvt "beforeDelete"], none)

/-- `executeAfterDelete`: `afterDelete` with the exception logged and
swallowed. -/
def executeAfterDelete (h : Hooks) : List Event :=
  match h.afterDelete with
  | some _ => [.hookEvt "afterDelete", .logEvt "After delete hook failed"]
  | none => [.hookEvt "afterDelete"]

end HookManager

/-! ## The entity mapper (`src/Database/Model.ts`)

An entity instance: its enumerable data properties (including `id`,
`createdAt`, `updatedAt` once set), the `$original` dirty-tracking snapshot,
and the `$relations` / `$loadedRelations` bookkeeping.  The `$`-prefixed
internals and the methods are not data properties; the per-instance relation
getters installed by `setupRelationGetters` read from `relations` and are
modelled by that map. -/

/-- A value assigned to `$relations[name]`: a single entity-or-null for
to-one relations, a list for to-many relations.  Related entities are
identified by their `(documentId, rawFields)` document — both the lazy and
the preload path hydrate each selected document in the same way, so document
selection is the level at which results are compared. -/
inductive RelVal where
  | one : Option (String × Obj) → RelVal
  | many : List (String × Obj) → RelVal
  deriving Repr, DecidableEq

structure MInstance where
  fields : Obj
  original : Obj
  relations : List (String × RelVal)
  loadedRelations : List String
  deriving Repr, DecidableEq

namespace MInstance

/-- `key.startsWith('_') || key.startsWith('$')`: the single-character
prefix tests of `toJSON`, taken on the key's character list. -/
def isInternalKey (k : String) : Bool :=
  match k.data with
  | [] => false
  | c :: _ => c == Char.ofNat 95 || c == Char.ofNat 36

/-- `toJSON()`: the own enumerable properties minus functions and the
`_`/`$`-prefixed internals (`Char.ofNat 95/36` are `_` and `$`). -/
def toJSON (i : MInstance) : Obj :=
  i.fields.filter (fun p => !isInternalKey p.1)

/-- `$isDirty()`: some key of `$original` whose current value differs from
the snapshot under JavaScript strict inequality `!==`. -/
def isDirty (i : MInstance) : Bool :=
  i.original.any (fun p => !(Value.strictEq (jsGet i.fields p.1) p.2))

/-- `$isDirty(field)`: one specific field. -/
def isDirtyField (i : MInstance) (field : String) : Bool :=
  !(Value.strictEq (jsGet i.fields field) (jsGet i.original field))

/-- `$dirtyFields()`: the keys of `$original` whose current value differs
from the snapshot. -/
def dirtyFields (i : MInstance) : List String :=
  (i.original.filter (fun p => !(Value.strictEq (jsGet i.fields p.1) p.2))).map (·.1)

end MInstance

/-- The document-id string handed to `doc(firestore, coll, id)`; the engine
only ever passes string identifiers. -/
def Value.asStr : Value → String
  | .vStr s => s
  | _ => ""

namespace Model

open HookManager World

/-- `Model.hydrate(id, data)`: fresh instance, `instance.id = id`, copy all
raw properties, convert `Timestamp`-valued `createdAt`/`updatedAt` to fresh
`Date` objects, then build `$original = { id, ...data }` and convert its
timestamps with *further* fresh `Date` objects. -/
def hydrate (id : String) (data : Obj) (w : World) : MInstance × World :=
  let fields0 := setField ([] : Obj) "id" (.vStr id)
  let fields1 := assignObj fields0 data
  let step1 : Obj × World :=
    match getField data "createdAt" with
    | some (.vTimestamp r m) =>
      let c := World.toDate (.vTimestamp r m) w
      (setField fields1 "createdAt" c.1, c.2)
    | _ => (fields1, w)
  let step2 : Obj × World :=
    match getField data "updatedAt" with
    | some (.vTimestamp r m) =>
      let c := World.toDate (.vTimestamp r m) step1.2
      (setField step1.1 "updatedAt" c.1, c.2)
    | _ => step1
  let original0 := assignObj [("id", Value.vStr id)] data
  let step3 : Obj × World :=
    match getField data "createdAt" with
    | some (.vTimestamp r m) =>
      let c := World.toDate (.vTimestamp r m) step2.2
      (setField original0 "createdAt" c.1, c.2)
    | _ => (original0, step2.2)
  let step4 : Obj × World :=
    match getField data "updatedAt" with
    | some (.vTimestamp r m) =>
      let c := World.toDate (.vTimestamp r m) step3.2
      (setField step3.1 "updatedAt" c.1, c.2)
    | _ => step3
  ({ fields := step2.1, original := step4.1, relations := [],
     loadedRelations := [] }, step4.2)

/-- `Model.create(data)`: build an instance from `data`, run the before-create
hooks, serialize, stamp `createdAt`/`updatedAt` via two `Timestamp.now()`
reads when timestamps are enabled, strip `id`, `addDoc`, copy the assigned id
and converted dates back onto the instance, set `$original`, run the
after-create hooks (failures swallowed). -/
def create (timestamps : Bool) (coll : String) (hs : Hooks) (data : Obj)
    (w : World) : List Event × Except String MInstance × World :=
  let inst0 : MInstance :=
    { fields := data, original := [], relations := [], loadedRelations := [] }
  match executeBeforeCreate hs with
  | (tr, some e) => (tr, .error e, w)
  | (tr, none) =>
    let docData := inst0.toJSON
    let (docData, w) :=
      if timestamps then
        let (t1, w') := w.timestampNow
        let (t2, w'') := w'.timestampNow
        (setField (setField docData "createdAt" t1) "updatedAt" t2, w'')
      else (docData, w)
    let docData := removeField docData "id"
    let (autoId, w) := w.addDocIn coll docData
    let inst1 : MInstance :=
      { inst0 with fields := setField inst0.fields "id" (.vStr autoId) }
    let (inst2, w) :=
      if timestamps then
        let (d1, w') := World.toDate (jsGet docData "createdAt") w
        let (d2, w'') := World.toDate (jsGet docData "updatedAt") w'
        let f2 := setField (setField inst1.fields "createdAt" d1) "updatedAt" d2
        (({ inst1 with fields := f2 } : MInstance), w'')
      else (inst1, w)
    let inst3 : MInstance :=
      { inst2 with original := setField inst2.toJSON "id" (jsGet inst2.fields "id") }
    (tr ++ [.addDocEvt coll autoId] ++ executeAfterCreate hs, .ok inst3, w)

/-- `Model.createWithId(id, data)`: shallow-copy the raw data, stamp
timestamps, strip `id`, `setDoc` under the caller-supplied identifier and
return the hydrated payload.  No hooks are referenced anywhere in its
body. -/
def createWithId (timestamps : Bool) (coll : String) (id : String) (data : Obj)
    (w : World) : List Event × MInstance × World :=
  let docData := assignObj ([] : Obj) data
  let (docData, w) :=
    if timestamps then
      let (t1, w') := w.timestampNow
      let (t2, w'') := w'.timestampNow
      (setField (setField docData "createdAt" t1) "updatedAt" t2, w'')
    else (docData, w)
  let docData := removeField docData "id"
  let w := w.setDocIn coll id docData
  let (inst, w) := hydrate id docData w
  ([.setDocEvt coll id], inst, w)

/-- `save()`: requires an identifier; `isNew` is decided by `$original` being
empty; before-hooks, payload = `toJSON` minus `id`/`createdAt` with a fresh
`updatedAt` stamp, `updateDoc`, `$original` refresh, after-hooks (failures
swallowed). -/
def save (timestamps : Bool) (coll : String) (hs : Hooks) (inst : MInstance)
    (w : World) : List Event × Except String MInstance × World :=
  if (jsGet inst.fields "id").jsFalsy then
    ([], .error "Cannot save model without id. Use Model.create() instead.", w)
  else
    let isNew := inst.original.isEmpty
    match (if isNew then executeBeforeCreate hs else executeBeforeUpdate hs) with
    | (tr, some e) => (tr, .error e, w)
    | (tr, none) =>
      let updateData := inst.toJSON
      let (updateData, inst', w) :=
        if timestamps then
          let (t, w') := w.timestampNow
          let (d, w'') := w'.newDate
          ((setField updateData "updatedAt" t),
            ({ inst with fields := setField inst.fields "updatedAt" d } : MInstance),
            w'')
        else (updateData, inst, w)
      let updateData := removeField (removeField updateData "id") "createdAt"
      let idStr := (jsGet inst'.fields "id").asStr
      let w := w.updateDocIn coll idStr updateData
      let inst'' : MInstance :=
        { inst' with original := setField inst'.toJSON "id" (jsGet inst'.fields "id") }
      let afterTr := if isNew then executeAfterCreate hs else executeAfterUpdate hs
      (tr ++ [.updateDocEvt coll idStr] ++ afterTr, .ok inst'', w)

/-- `delete()`: requires an identifier; `beforeDelete` (a throw aborts with
the store untouched), `deleteDoc`, then `afterDelete` (failure swallowed). -/
def delete (coll : String) (hs : Hooks) (inst : MInstance) (w : World) :
    List Event × Except String Unit × World :=
  if (jsGet inst.fields "id").jsFalsy then
    ([], .error "Cannot delete model without id", w)
  else
    match executeBeforeDelete hs with
    | (tr, some e) => (tr, .error e, w)
    | (tr, none) =>
      let idStr := (jsGet inst.fields "id").asStr
      let w := w.deleteDocIn coll idStr
      (tr ++ [.deleteDocEvt coll idStr] ++ executeAfterDelete hs, .ok (), w)

end Model

/-! ## Query primitives

`getDocs` with a `where`/`whereIn` constraint at the store collaborator:
a predicate on the *stored* fields of each `(documentId, rawFields)`
document of the queried collection. -/

/-- One Firestore equality test of a stored field against a value: a missing
field never matches. -/
def docMatches (o : Obj) (field : String) (v : Value) : Bool :=
  match getField o field with
  | some w => Value.fsEq w v
  | none => false

/-- A collection read filtered by `where(field, "==", v)`. -/
def whereEq (coll : List (String × Obj)) (field : String) (v : Value) :
    List (String × Obj) :=
  coll.filter (fun d => docMatches d.2 field v)

/-- A collection read filtered by `whereIn(field, vals)`. -/
def whereIn (coll : List (String × Obj)) (field : String) (vals : List Value) :
    List (String × Obj) :=
  coll.filter (fun d => vals.any (fun v => docMatches d.2 field v))

/-- `getDoc` by document id (ids are unique in a real collection; first
match). -/
def findDoc (coll : List (String × Obj)) (id : String) : Option (String × Obj) :=
  coll.find? (fun d => d.1 == id)

/-! ## QueryBuilder (`src/Database/QueryBuilder.ts`) -/

namespace QueryBuilder

/-- The public members defined on the `QueryBuilder` class, in source
order. -/
def methods : List String :=
  ["where", "whereEquals", "whereNotEquals", "whereGreaterThan",
   "whereGreaterThanOrEqual", "whereLessThan", "whereLessThanOrEqual",
   "whereIn", "whereNotIn", "whereArrayContains", "whereArrayContainsAny",
   "orderBy", "limit", "startAfter", "preload", "get", "first", "firstOrFail",
   "count", "exists", "update", "delete"]

/-- `executeBatches`: partition the matched documents into consecutive chunks
of at most `BATCH_SIZE = 500`, one atomic batch per chunk; the loop `await`s
each `batch.commit()` before opening the next batch. -/
def executeBatches (docs : List α) : List (List α) :=
  chunkList 500 docs

/-- The observable trace of `executeBatches`: one commit per chunk carrying
that chunk's operation count, in chunk order. -/
def batchTrace (docs : List α) : List Event :=
  (executeBatches docs).map (fun c => .batchCommitEvt c.length)

/-- `update(data, options)` after its `getDocs` read returned `snapshot`:
empty snapshot short-circuits to `{count: 0}` with no write; otherwise the
payload is `{...data}` minus `id`/`createdAt` with an `updatedAt` stamp
(unless timestamps are disabled), applied per document — concurrently when
`parallel`, else through `executeBatches`. -/
def update (timestamps : Bool) (coll : String) (snapshot : List (String × Obj))
    (data : Obj) (parallel : Bool) (w : World) : List Event × Nat × World :=
  if snapshot.isEmpty then ([], 0, w)
  else
    let updateData := assignObj ([] : Obj) data
    let (updateData, w) :=
      if timestamps then
        let (t, w') := w.timestampNow
        (setField updateData "updatedAt" t, w')
      else (updateData, w)
    let updateData := removeField (removeField updateData "id") "createdAt"
    let w := snapshot.foldl (fun acc d => World.updateDocIn acc coll d.1 updateData) w
    if parallel then
      (snapshot.map (fun d => .updateDocEvt coll d.1), snapshot.length, w)
    else
      (batchTrace snapshot, snapshot.length, w)

/-- `delete(options)` after its `getDocs` read returned `snapshot`: empty
snapshot returns 0 with no write; otherwise every matched document is
deleted — concurrently when `parallel`, else through `executeBatches`. -/
def delete (coll : String) (snapshot : List (String × Obj)) (parallel : Bool)
    (w : World) : List Event × Nat × World :=
  if snapshot.isEmpty then ([], 0, w)
  else
    let w := snapshot.foldl (fun acc d => World.deleteDocIn acc coll d.1) w
    if parallel then
      (snapshot.map (fun d => .deleteDocEvt coll d.1), snapshot.length, w)
    else
      (batchTrace snapshot, snapshot.length, w)

end QueryBuilder

/-! ## ManyToMany pivot operations (`src/Database/Relations/ManyToMany.ts`) -/

namespace ManyToMany

/-- The pivot rows matched by `detach(relatedId)`: both foreign keys equal. -/
def detachMatches (pivot : List (String × Obj)) (foreignKey relatedKey : String)
    (localKeyValue : Value) (relatedId : String) : List (String × Obj) :=
  pivot.filter (fun d =>
    docMatches d.2 foreignKey localKeyValue &&
    docMatches d.2 relatedKey (.vStr relatedId))

/-- `detach(relatedId)`: query the pivot rows matching both foreign keys and
delete every match (via concurrent `deleteDoc`s — the final collection state
is their removal); returns the new pivot collection together with the number
of rows removed.  No error path exists: an empty match set deletes
nothing. -/
def detach (pivot : List (String × Obj)) (foreignKey relatedKey : String)
    (localKeyValue : Value) (relatedId : String) : List (String × Obj) × Nat :=
  (pivot.filter (fun d =>
      !(docMatches d.2 foreignKey localKeyValue &&
        docMatches d.2 relatedKey (.vStr relatedId))),
    (detachMatches pivot foreignKey relatedKey localKeyValue relatedId).length)

end ManyToMany

/-! ## Relations: the lazy path and the PreloadManager
(`src/Database/Relations/BelongsTo.ts`,
`src/Database/Relations/PreloadManager.ts`)

Related entities are represented by the `(documentId, rawFields)` documents
they are hydrated from; both paths hydrate each selected document
identically, so document selection is the compared result. -/

/-- The value `r[key]` read off a hydrated instance of document `d`:
hydration sets `instance.id = docId` and then assigns the raw fields over
it.  (The `Timestamp → Date` conversion step of hydration is omitted here:
a freshly allocated `Date` — compared by reference — can never equal a
foreign-key value, and the engine keys its indexes by identifier-like
string fields, on which conversion is the identity.) -/
def hydratedKey (d : String × Obj) (k : String) : Value :=
  jsGet (assignObj [("id", Value.vStr d.1)] d.2) k

/-- `BelongsTo.get()`: read the foreign key off the parent; falsy
short-circuits to `null`; otherwise `RelatedModel.find(foreignKeyValue)` —
a lookup by *document id*, ignoring any configured `ownerKey`.  (A
non-string foreign-key value would make `doc()` throw in the SDK; the
engine only stores string identifiers, and `asStr` then selects
nothing.) -/
def belongsToGet (store : List (String × Obj)) (foreignKey : String)
    (parent : MInstance) : Option (String × Obj) :=
  let fkv := jsGet parent.fields foreignKey
  if fkv.jsFalsy then none
  else findDoc store fkv.asStr

/-- `HasMany.get()` in the `foreignKey` sub-mode: `query().get()` where the
query is `RelatedModel.query().where(foreignKey, '==', localKeyValue)` with
`localKeyValue = parent[localKey ?? 'id']`; every returned document is
hydrated. -/
def hasManyForeignKeyGet (store : List (String × Obj)) (foreignKey localKey : String)
    (parent : MInstance) : List (String × Obj) :=
  whereEq store foreignKey (jsGet parent.fields localKey)

/-- `ManyToMany.get()`: query the pivot collection for rows whose
`foreignKey` equals the parent's local key (each row read as
`{id: doc.id, ...doc.data()}`), short-circuit to `[]` when none, then fetch
the related collection by `whereIn(relatedLocalKey, ·)` over 10-sized chunks
of the (non-deduplicated) pivot `relatedKey` values.  The optional `$pivot`
sidecar attachment decorates the hydrated instances but does not change
which documents are returned. -/
def manyToManyGet (pivotStore relatedStore : List (String × Obj))
    (foreignKey relatedKey localKey relatedLocalKey : String)
    (parent : MInstance) : List (String × Obj) :=
  let pivots := (whereEq pivotStore foreignKey (jsGet parent.fields localKey)).map
    (fun d => assignObj [("id", Value.vStr d.1)] d.2)
  if pivots.isEmpty then []
  else
    let relatedIds := pivots.map (fun p => jsGet p relatedKey)
    ((chunkList 10 relatedIds).map (fun c => whereIn relatedStore relatedLocalKey c)).flatten

namespace PreloadManager

/-- `$relations[name] = v` on an instance, and
`$loadedRelations.add(name)`. -/
def setRel : List (String × RelVal) → String → RelVal → List (String × RelVal)
  | [], k, v => [(k, v)]
  | (k', w) :: t, k, v => if k' = k then (k, v) :: t else (k', w) :: setRel t k v

/-- First-match read of `$relations[name]`. -/
def getRel : List (String × RelVal) → String → Option RelVal
  | [], _ => none
  | (k', w) :: t, k => if k' = k then some w else getRel t k

/-- Assign a loaded relation value and mark the relation loaded. -/
def assignRel (m : MInstance) (name : String) (v : RelVal) : MInstance :=
  { m with
    relations := setRel m.relations name v,
    loadedRelations :=
      if name ∈ m.loadedRelations then m.loadedRelations
      else m.loadedRelations ++ [name] }

/-- The related document `loadBelongsTo` assigns to one owner `m` of the
batch `models`: collect the distinct non-nullish, non-`''` foreign-key
values of the batch; if none, `null`; otherwise `whereIn(ownerKey, ·)` per
10-sized chunk, index the fetched documents by their hydrated `ownerKey`
value (`Map.set`, last write wins), and look the owner's foreign-key value
up (`?? null`). -/
def belongsToAssign (store : List (String × Obj)) (foreignKey ownerKey : String)
    (models : List MInstance) (m : MInstance) : Option (String × Obj) :=
  let vals := jsSetDedup
    ((models.map (fun p => jsGet p.fields foreignKey)).filter
      (fun v => !(v.isNullish || Value.strictEq v (.vStr ""))))
  if vals.isEmpty then none
  else
    let chunks := chunkList 10 vals
    let allRelated := (chunks.map (fun c => whereIn store ownerKey c)).flatten
    let index := allRelated.map (fun d => (hydratedKey d ownerKey, d))
    lookupLast index (jsGet m.fields foreignKey)

/-- `loadBelongsTo`: every owner gets its related entity (or `null`) and is
marked loaded — also in the no-usable-key short-circuit branch. -/
def loadBelongsTo (store : List (String × Obj)) (foreignKey ownerKey relName : String)
    (models : List MInstance) : List MInstance :=
  models.map (fun m =>
    assignRel m relName (.one (belongsToAssign store foreignKey ownerKey models m)))

/-- The related-document list `loadHasManyForeignKey` assigns to one owner:
collect the non-nullish local-key values of the batch (no deduplication in
this loader); if none, `[]`; otherwise `whereIn(foreignKey, ·)` per chunk,
group everything fetched by its hydrated foreign-key value, and read the
owner's group (`?? []`). -/
def hasManyFkAssign (store : List (String × Obj)) (foreignKey localKey : String)
    (models : List MInstance) (m : MInstance) : List (String × Obj) :=
  let vals := (models.map (fun p => jsGet p.fields localKey)).filter
    (fun v => !v.isNullish)
  if vals.isEmpty then []
  else
    let chunks := chunkList 10 vals
    let allRelated := (chunks.map (fun c => whereIn store foreignKey c)).flatten
    let groups := groupBy allRelated (fun d => hydratedKey d foreignKey)
    lookupGroup groups (jsGet m.fields localKey)

/-- `loadHasManyForeignKey`: assign and mark loaded on every owner. -/
def loadHasManyForeignKey (store : List (String × Obj))
    (foreignKey localKey relName : String) (models : List MInstance) :
    List MInstance :=
  models.map (fun m =>
    assignRel m relName (.many (hasManyFkAssign store foreignKey localKey models m)))

/-- What `relationFactory.call(ModelClass, model)` evaluates to inside
`loadHasManySubcollection`: the static relation method (e.g.
`static notifications() { return this.hasMany(...) }`) ignores the `model`
argument and returns the relation *factory function*
`(parent) => new HasMany(parent, Related, config)` — a plain function value,
not a relation instance.  (Contrast `loadRelation`, which correctly applies
the returned factory to a parent in a second step.) -/
inductive RelationCallResult where
  | factoryFn
  | relationInstance
  deriving Repr, DecidableEq

/-- The one-step invocation of the static relation method performed by
`loadHasManySubcollection`. -/
def staticRelationMethodCall (_model : MInstance) : RelationCallResult :=
  .factoryFn

/-- `relation.query()` followed by `await queryBuilder.get()`: only a
relation instance carries a callable `query` member; on a function value the
property read yields `undefined` and the call throws before any query is
issued.  `subFetch` is the per-parent subcollection read the instance path
would perform at the store boundary. -/
def callQueryMember (subFetch : MInstance → List (String × Obj)) (m : MInstance) :
    RelationCallResult → Except String (List (String × Obj))
  | .factoryFn => .error "TypeError: relation.query is not a function"
  | .relationInstance => .ok (subFetch m)

/-- The per-parent loop body of `loadHasManySubcollection`, sequenced: an
error from any parent rejects the whole `Promise.all`, and a rejected parent
performs no assignment and no marking. -/
def loadHasManySubcollectionGo (subFetch : MInstance → List (String × Obj))
    (relName : String) : List MInstance → Except String (List MInstance)
  | [] => .ok []
  | m :: rest =>
    match callQueryMember subFetch m (staticRelationMethodCall m) with
    | .error e => .error e
    | .ok docs =>
      match loadHasManySubcollectionGo subFetch relName rest with
      | .error e => .error e
      | .ok tail => .ok (assignRel m relName (.many docs) :: tail)

/-- `loadHasManySubcollection`: one isolated query per parent (no
cross-parent batching is possible).  The source obtains the relation with a
*single* `relationFactory.call(ModelClass, model)` — which returns the
factory function, not a relation instance — so `relation.query()` throws a
`TypeError` for every parent and the loader rejects without assigning
`$relations` or marking `$loadedRelations` on any model. -/
def loadHasManySubcollection (subFetch : MInstance → List (String × Obj))
    (relName : String) (models : List MInstance) : Except String (List MInstance) :=
  loadHasManySubcollectionGo subFetch relName models

/-- The related-document list `loadManyToMany` assigns to one owner: pivot
rows are fetched by chunked `whereIn(foreignKey, localKeys)` and read as
`{id: doc.id, ...doc.data()}`; their distinct related ids are chunk-fetched
from the related collection; pivots are grouped by the local foreign key and
each owner maps its pivot rows through the related index, dropping unmatched
ids (`.filter(Boolean)`). -/
def manyToManyAssign (pivotStore relatedStore : List (String × Obj))
    (foreignKey relatedKey localKey relatedLocalKey : String)
    (models : List MInstance) (m : MInstance) : List (String × Obj) :=
  let localVals := (models.map (fun p => jsGet p.fields localKey)).filter
    (fun v => !v.isNullish)
  if localVals.isEmpty then []
  else
    let chunks := chunkList 10 localVals
    let allPivots :=
      (((chunks.map (fun c => whereIn pivotStore foreignKey c)).flatten).map
        (fun d => assignObj [("id", Value.vStr d.1)] d.2))
    if allPivots.isEmpty then []
    else
      let relatedIds := jsSetDedup (allPivots.map (fun p => jsGet p relatedKey))
      let relatedChunks := chunkList 10 relatedIds
      let allRelated :=
        (relatedChunks.map (fun c => whereIn relatedStore relatedLocalKey c)).flatten
      let pivotsByLocal := groupBy allPivots (fun p => jsGet p foreignKey)
      let relatedById := allRelated.map (fun d => (hydratedKey d relatedLocalKey, d))
      let modelPivots := lookupGroup pivotsByLocal (jsGet m.fields localKey)
      (modelPivots.map (fun p => lookupLast relatedById (jsGet p relatedKey))).reduceOption

/-- `loadManyToMany`: assign and mark loaded on every owner — in the
no-local-key and no-pivot-row short circuits as well as the main path. -/
def loadManyToMany (pivotStore relatedStore : List (String × Obj))
    (foreignKey relatedKey localKey relatedLocalKey relName : String)
    (models : List MInstance) : List MInstance :=
  models.map (fun m =>
    assignRel m relName (.many (manyToManyAssign pivotStore relatedStore
      foreignKey relatedKey localKey relatedLocalKey models m)))

end PreloadManager

/-! ## Shared helper lemmas -/

theorem Obj.getField_removeField_ne (o : Obj) (k k' : String) (h : k' ≠ k) :
    getField (removeField o k) k' = getField o k' := by
  unfold removeField
  induction o with
  | nil => rfl
  | cons p t ih =>
    obtain ⟨k₀, w⟩ := p
    rw [List.filter_cons]
    by_cases h0 : k₀ = k
    · subst h0
      simp [getField, Ne.symm h, ih]
    · by_cases h1 : k₀ = k' <;> simp [getField, h0, h1, h, ih]

theorem Obj.jsGet_setField_self (o : Obj) (k : String) (v : Value) :
    jsGet (setField o k v) k = v := by
  unfold jsGet
  rw [getField_setField_self]
  rfl

theorem Obj.jsGet_setField_ne (o : Obj) (k k' : String) (v : Value) (h : k' ≠ k) :
    jsGet (setField o k v) k' = jsGet o k' := by
  unfold jsGet
  rw [getField_setField_ne _ _ _ _ h]

theorem Obj.jsGet_removeField_ne (o : Obj) (k k' : String) (h : k' ≠ k) :
    jsGet (removeField o k) k' = jsGet o k' := by
  unfold jsGet
  rw [getField_removeField_ne _ _ _ h]

/-- The instant carried by a `Timestamp` or `Date` value. -/
def Value.millisOf : Value → Option Nat
  | .vTimestamp _ m => some m
  | .vDate _ m => some m
  | _ => none

/-- Projection of a successful mapper result; the claims apply it only where
the operation is proved (or evaluated) to succeed. -/
def resultInstance : Except String MInstance → MInstance
  | .ok i => i
  | .error _ => ⟨[], [], [], []⟩

theorem PreloadManager.assignRel_loaded (m : MInstance) (name : String) (v : RelVal) :
    name ∈ (PreloadManager.assignRel m name v).loadedRelations := by
  unfold PreloadManager.assignRel
  by_cases h : name ∈ m.loadedRelations <;> simp [h]

theorem PreloadManager.getRel_setRel_self (rs : List (String × RelVal))
    (name : String) (v : RelVal) :
    PreloadManager.getRel (PreloadManager.setRel rs name v) name = some v := by
  induction rs with
  | nil => simp [PreloadManager.setRel, PreloadManager.getRel]
  | cons p t ih =>
    obtain ⟨k, w⟩ := p
    by_cases h : k = name <;>
      simp [PreloadManager.setRel, PreloadManager.getRel, h, ih]

/-! ## Claims -/

theorem Value.fsEq_vStr_iff (a : String) (v : Value) :
    Value.fsEq (.vStr a) v = true ↔ v = .vStr a := by
  cases v <;> simp [Value.fsEq]
  exact eq_comm

theorem Value.strictEq_vStr_iff (a : String) (v : Value) :
    Value.strictEq (.vStr a) v = true ↔ v = .vStr a := by
  cases v <;> simp [Value.strictEq]
  exact eq_comm

theorem lookupLast_eq_none {α : Type} (entries : List (Value × α)) (k : Value)
    (h : ∀ p ∈ entries, Value.strictEq p.1 k = false) :
    lookupLast entries k = none := by
  unfold lookupLast
  have : entries.reverse.find? (fun p => Value.strictEq p.1 k) = none := by
    rw [List.find?_eq_none]
    intro p hp
    simp [h p (List.mem_reverse.mp hp)]
  rw [this]
  rfl

theorem find?_map_eq {α β : Type} (l : List α) (p : α → Bool) (f : α → β) (a : β)
    (hex : ∃ x ∈ l, p x = true) (huniq : ∀ x ∈ l, p x = true → f x = a) :
    (l.find? p).map f = some a := by
  induction l with
  | nil =>
    obtain ⟨x, hx, _⟩ := hex
    simp at hx
  | cons b t ih =>
    by_cases hb : p b
    · rw [List.find?_cons_of_pos _ hb]
      simp [huniq b (List.mem_cons_self _ _) hb]
    · rw [List.find?_cons_of_neg _ hb]
      apply ih
      · obtain ⟨x, hx, hpx⟩ := hex
        rcases List.mem_cons.mp hx with rfl | hx'
        · exact absurd hpx hb
        · exact ⟨x, hx', hpx⟩
      · intro x hx hpx
        exact huniq x (List.mem_cons_of_mem _ hx) hpx

theorem lookupLast_eq_some {α : Type} (entries : List (Value × α)) (k : Value) (a : α)
    (hex : ∃ p ∈ entries, Value.strictEq p.1 k = true)
    (huniq : ∀ p ∈ entries, Value.strictEq p.1 k = true → p.2 = a) :
    lookupLast entries k = some a := by
  unfold lookupLast
  apply find?_map_eq
  · obtain ⟨p, hp, hpk⟩ := hex
    exact ⟨p, List.mem_reverse.mpr hp, hpk⟩
  · intro p hp hpk
    exact huniq p (List.mem_reverse.mp hp) hpk

/-- Documents with the same id in a duplicate-free collection coincide. -/
theorem nodup_id_unique {store : List (String × Obj)}
    (h : (store.map Prod.fst).Nodup) {d d' : String × Obj}
    (hd : d ∈ store) (hd' : d' ∈ store) (heq : d.1 = d'.1) : d = d' :=
  List.inj_on_of_nodup_map h hd hd' heq

/-- Membership in the chunk-fetched related set of the to-one preloader:
under the mirror hypothesis (every related document stores its id in the
`ownerKey` field), a document is fetched iff its id, as a string value, is
among the collected foreign-key values. -/
theorem belongsTo_fetch_mem {store : List (String × Obj)} {ok : String}
    (hmirror : ∀ d ∈ store, getField d.2 ok = some (.vStr d.1))
    (vals : List Value) (d : String × Obj) :
    d ∈ ((chunkList 10 vals).map (fun c => whereIn store ok c)).flatten ↔
      d ∈ store ∧ .vStr d.1 ∈ vals := by
  rw [List.mem_flatten]
  constructor
  · rintro ⟨l, hl, hdl⟩
    obtain ⟨c, hc, rfl⟩ := List.mem_map.mp hl
    rw [whereIn, List.mem_filter] at hdl
    obtain ⟨hds, hmatch⟩ := hdl
    refine ⟨hds, ?_⟩
    obtain ⟨v, hv, hmv⟩ := List.any_eq_true.mp hmatch
    unfold docMatches at hmv
    rw [hmirror d hds] at hmv
    have hveq : v = .vStr d.1 := (Value.fsEq_vStr_iff _ _).mp hmv
    subst hveq
    have : (Value.vStr d.1) ∈ (chunkList 10 vals).flatten :=
      List.mem_flatten.mpr ⟨c, hc, hv⟩
    rwa [chunkList_join 10 (by omega)] at this
  · rintro ⟨hds, hv⟩
    have hvj : (Value.vStr d.1) ∈ (chunkList 10 vals).flatten := by
      rw [chunkList_join 10 (by omega)]
      exact hv
    obtain ⟨c, hc, hvc⟩ := List.mem_flatten.mp hvj
    refine ⟨whereIn store ok c, List.mem_map.mpr ⟨c, hc, rfl⟩, ?_⟩
    rw [whereIn, List.mem_filter]
    refine ⟨hds, List.any_eq_true.mpr ⟨.vStr d.1, hvc, ?_⟩⟩
    unfold docMatches
    rw [hmirror d hds]
    simp [Value.fsEq]

/-- Under the mirror hypothesis, the index key of a fetched document (the
hydrated `ownerKey` read) is its document id. -/
theorem hydratedKey_mirror {store : List (String × Obj)} {ok : String}
    (hmirror : ∀ d ∈ store, getField d.2 ok = some (.vStr d.1))
    (hkeys : ∀ d ∈ store, (d.2.map Prod.fst).Nodup)
    (d : String × Obj) (hd : d ∈ store) : hydratedKey d ok = .vStr d.1 := by
  unfold hydratedKey
  rw [Obj.jsGet_assignObj _ _ (hkeys d hd), hmirror d hd]

/-- The last-wins index lookup of the to-one preloader agrees with the
document-id lookup of the lazy path, for any string key present among the
collected values. -/
theorem lookupLast_index_eq_findDoc {store : List (String × Obj)} {ok : String}
    (hmirror : ∀ d ∈ store, getField d.2 ok = some (.vStr d.1))
    (hkeys : ∀ d ∈ store, (d.2.map Prod.fst).Nodup)
    (hnodup : (store.map Prod.fst).Nodup)
    (vals : List Value) (s : String) (hsv : .vStr s ∈ vals) :
    lookupLast ((((chunkList 10 vals).map (fun c => whereIn store ok c)).flatten).map
      (fun d => (hydratedKey d ok, d))) (.vStr s) = findDoc store s := by
  cases hfind : findDoc store s with
  | some d0 =>
    have hd0mem : d0 ∈ store := List.mem_of_find?_eq_some hfind
    have hd0s : d0.1 = s := by simpa using List.find?_some hfind
    apply lookupLast_eq_some
    · refine ⟨(.vStr d0.1, d0), List.mem_map.mpr ⟨d0, ?_, ?_⟩, ?_⟩
      · exact (belongsTo_fetch_mem hmirror vals d0).mpr ⟨hd0mem, by rw [hd0s]; exact hsv⟩
      · rw [hydratedKey_mirror hmirror hkeys d0 hd0mem]
      · simp [Value.strictEq, hd0s]
    · rintro ⟨kv, d⟩ hp hpk
      obtain ⟨d', hd', heq⟩ := List.mem_map.mp hp
      obtain ⟨hd'm, _⟩ := (belongsTo_fetch_mem hmirror vals d').mp hd'
      rw [hydratedKey_mirror hmirror hkeys d' hd'm] at heq
      obtain ⟨hkv, hd2⟩ := Prod.mk.injEq .. ▸ heq
      subst hkv hd2
      have hstr : d'.1 = s := by simpa [Value.strictEq] using hpk
      show d' = d0
      exact nodup_id_unique hnodup hd'm hd0mem (by rw [hstr, hd0s])
  | none =>
    apply lookupLast_eq_none
    rintro ⟨kv, d⟩ hp
    obtain ⟨d', hd', heq⟩ := List.mem_map.mp hp
    obtain ⟨hd'm, _⟩ := (belongsTo_fetch_mem hmirror vals d').mp hd'
    rw [hydratedKey_mirror hmirror hkeys d' hd'm] at heq
    obtain ⟨hkv, hd2⟩ := Prod.mk.injEq .. ▸ heq
    subst hkv hd2
    have hne : d'.1 ≠ s := by
      intro hcase
      exact (List.find?_eq_none.mp hfind d' hd'm) (by simpa using hcase)
    simp [Value.strictEq, hne]

theorem Value.fsEq_vStr_right (a : String) (v : Value) :
    Value.fsEq v (.vStr a) = true ↔ v = .vStr a := by
  cases v <;> simp [Value.fsEq]

/-- Membership in a chunked `whereIn` fetch, for arbitrary stored field
values: a document is fetched iff it is stored and its field matches one of
the collected values. -/
theorem chunked_whereIn_mem (store : List (String × Obj)) (field : String)
    (vals : List Value) (d : String × Obj) :
    d ∈ ((chunkList 10 vals).map (fun c => whereIn store field c)).flatten ↔
      d ∈ store ∧ ∃ u ∈ vals, docMatches d.2 field u := by
  rw [List.mem_flatten]
  constructor
  · rintro ⟨l, hl, hdl⟩
    obtain ⟨c, hc, rfl⟩ := List.mem_map.mp hl
    rw [whereIn, List.mem_filter] at hdl
    obtain ⟨hds, hmatch⟩ := hdl
    obtain ⟨u, hu, hmu⟩ := List.any_eq_true.mp hmatch
    have : u ∈ (chunkList 10 vals).flatten := List.mem_flatten.mpr ⟨c, hc, hu⟩
    rw [chunkList_join 10 (by omega)] at this
    exact ⟨hds, u, this, hmu⟩
  · rintro ⟨hds, u, hu, hmu⟩
    have : u ∈ (chunkList 10 vals).flatten := by
      rw [chunkList_join 10 (by omega)]
      exact hu
    obtain ⟨c, hc, huc⟩ := List.mem_flatten.mp this
    exact ⟨whereIn store field c, List.mem_map.mpr ⟨c, hc, rfl⟩,
      List.mem_filter.mpr ⟨hds, List.any_eq_true.mpr ⟨u, huc, hmu⟩⟩⟩

/-- The hydrated read `r[k]` equals the stored field when the document
carries it (the raw data wins over the id overlay). -/
theorem hydratedKey_of_present {d : String × Obj} {k : String} {v : Value}
    (hnd : (d.2.map Prod.fst).Nodup) (h : getField d.2 k = some v) :
    hydratedKey d k = v := by
  unfold hydratedKey
  rw [Obj.jsGet_assignObj _ _ hnd, h]

theorem lookupGroupStr_groupByStep (keyVal : α → Value)
    (acc : List (String × List α)) (x : α) (g : String) :
    lookupGroupStr (groupByStep keyVal acc x) g =
      lookupGroupStr acc g ++
        (if (!(keyVal x).isNullish && ((keyVal x).keyOf == g)) then [x] else []) := by
  unfold groupByStep lookupGroupStr
  by_cases hn : (keyVal x).isNullish
  · simp [hn]
  · simp only [hn, Bool.not_false, Bool.true_and, if_false, Bool.false_eq_true]
    cases hf : acc.find? (fun p => p.1 == (keyVal x).keyOf) with
    | some e =>
      simp only
      rw [List.find?_map]
      have hpred : ((fun (p : String × List α) => p.1 == g) ∘
          (fun p => if p.1 == (keyVal x).keyOf then (p.1, p.2 ++ [x]) else p)) =
          fun (p : String × List α) => p.1 == g := by
        funext q
        by_cases hq : q.1 = (keyVal x).keyOf <;> simp [hq]
      rw [hpred]
      cases hfg : acc.find? (fun p => p.1 == g) with
      | none =>
        by_cases hg : (keyVal x).keyOf = g
        · rw [hg] at hf
          rw [hf] at hfg
          cases hfg
        · simp [hg]
      | some e' =>
        have he'g : e'.1 = g := by simpa using List.find?_some hfg
        by_cases hg : (keyVal x).keyOf = g
        · have hp : e'.1 = (keyVal x).keyOf := by rw [he'g, hg]
          simp [hg, hp]
        · have hp : e'.1 ≠ (keyVal x).keyOf := by
            rw [he'g]
            exact fun h => hg h.symm
          simp [hg, hp]
    | none =>
      simp only
      rw [List.find?_append]
      cases hfg : acc.find? (fun p => p.1 == g) with
      | some e' =>
        by_cases hg : (keyVal x).keyOf = g
        · rw [hg] at hf
          rw [hf] at hfg
          cases hfg
        · simp [hg]
      | none =>
        by_cases hg : (keyVal x).keyOf = g
        · simp [List.find?, hg]
        · have hb : ((keyVal x).keyOf == g) = false := by simp [hg]
          simp [List.find?, hb, hg]

theorem lookupGroupStr_groupBy_fold (keyVal : α → Value) (xs : List α)
    (g : String) : ∀ acc,
    lookupGroupStr (xs.foldl (groupByStep keyVal) acc) g =
      lookupGroupStr acc g ++
        xs.filter (fun x => !(keyVal x).isNullish && ((keyVal x).keyOf == g)) := by
  induction xs with
  | nil => simp
  | cons x t ih =>
    intro acc
    rw [List.foldl_cons, ih, lookupGroupStr_groupByStep, List.filter_cons]
    by_cases hc : (!(keyVal x).isNullish && ((keyVal x).keyOf == g)) = true <;>
      simp [hc, List.append_assoc]

/-- The group read back for a value is exactly the sublist of items whose
key value is non-nullish and string-coerces to that value's key, in order. -/
theorem lookupGroup_groupBy (xs : List α) (keyVal : α → Value) (v : Value) :
    lookupGroup (groupBy xs keyVal) v =
      xs.filter (fun x => !(keyVal x).isNullish && ((keyVal x).keyOf == v.keyOf)) := by
  unfold lookupGroup groupBy
  rw [lookupGroupStr_groupBy_fold]
  simp [lookupGroupStr]

/-- Characterization of the last-wins related index used by the pivot
preloader: under the mirror hypothesis the lookup of any value returns some
document iff that document is stored, its id is among the collected values,
and the looked-up value is exactly its id as a string. -/
theorem lookupLast_relIndex_some_iff {store : List (String × Obj)} {ok : String}
    (hmirror : ∀ d ∈ store, getField d.2 ok = some (.vStr d.1))
    (hkeys : ∀ d ∈ store, (d.2.map Prod.fst).Nodup)
    (hnodup : (store.map Prod.fst).Nodup)
    (vals : List Value) (u : Value) (d : String × Obj) :
    lookupLast ((((chunkList 10 vals).map (fun c => whereIn store ok c)).flatten).map
      (fun e => (hydratedKey e ok, e))) u = some d ↔
      d ∈ store ∧ .vStr d.1 ∈ vals ∧ u = .vStr d.1 := by
  constructor
  · intro h
    unfold lookupLast at h
    cases hf : (((chunkList 10 vals).map (fun c => whereIn store ok c)).flatten.map
        (fun e => (hydratedKey e ok, e))).reverse.find?
        (fun p => Value.strictEq p.1 u) with
    | none => rw [hf] at h; cases h
    | some p =>
      rw [hf] at h
      have hpd : p.2 = d := by simpa using h
      have hpk : Value.strictEq p.1 u = true := by simpa using List.find?_some hf
      have hmem := List.mem_of_find?_eq_some hf
      rw [List.mem_reverse] at hmem
      obtain ⟨e, he, heq⟩ := List.mem_map.mp hmem
      obtain ⟨hes, hev⟩ := (belongsTo_fetch_mem hmirror vals e).mp he
      rw [hydratedKey_mirror hmirror hkeys e hes] at heq
      subst heq
      simp only at hpd
      subst hpd
      exact ⟨hes, hev, (Value.strictEq_vStr_iff _ _).mp hpk⟩
  · rintro ⟨hds, hdv, rfl⟩
    apply lookupLast_eq_some
    · refine ⟨(.vStr d.1, d), List.mem_map.mpr ⟨d, ?_, ?_⟩, ?_⟩
      · exact (belongsTo_fetch_mem hmirror vals d).mpr ⟨hds, hdv⟩
      · rw [hydratedKey_mirror hmirror hkeys d hds]
      · simp [Value.strictEq]
    · rintro ⟨kv, e⟩ hp hpk
      obtain ⟨e', he', heq⟩ := List.mem_map.mp hp
      obtain ⟨he's, _⟩ := (belongsTo_fetch_mem hmirror vals e').mp he'
      rw [hydratedKey_mirror hmirror hkeys e' he's] at heq
      obtain ⟨hkv, he2⟩ := Prod.mk.injEq .. ▸ heq
      subst hkv he2
      have : e'.1 = d.1 := by simpa [Value.strictEq] using hpk
      show e' = d
      exact nodup_id_unique hnodup he's hds this

/-- The to-many (foreign-key `HasMany`) analogue of the preload/lazy
comparison: under per-document key uniqueness and string-typed stored
foreign keys, the batched loader assigns an owner with a string local key
exactly the documents its lazy `HasMany.get()` fetches (as sets — the
batched fetch may duplicate a document across value chunks). -/
theorem hasManyFk_preload_lazy_equiv
    (store : List (String × Obj)) (fk lk : String)
    (models : List MInstance) (m : MInstance) (s : String)
    (hstr : ∀ d ∈ store, ∀ v, getField d.2 fk = some v → ∃ t, v = Value.vStr t)
    (hkeys : ∀ d ∈ store, (d.2.map Prod.fst).Nodup)
    (hm : m ∈ models)
    (hlk : jsGet m.fields lk = .vStr s)
    (d : String × Obj) :
    d ∈ PreloadManager.hasManyFkAssign store fk lk models m ↔
      d ∈ hasManyForeignKeyGet store fk lk m := by
  simp only [PreloadManager.hasManyFkAssign, hasManyForeignKeyGet, whereEq]
  set vals := (models.map (fun p => jsGet p.fields lk)).filter
    (fun v => !v.isNullish) with hvals
  have hsv : Value.vStr s ∈ vals := by
    rw [hvals]
    exact List.mem_filter.mpr
      ⟨List.mem_map.mpr ⟨m, hm, hlk⟩, by simp [Value.isNullish]⟩
  have hne : vals.isEmpty = false := by
    cases hv : vals with
    | nil => rw [hv] at hsv; simp at hsv
    | cons a t => rfl
  rw [hne]
  simp only [Bool.false_eq_true, if_false]
  rw [hlk, lookupGroup_groupBy, List.mem_filter, List.mem_filter]
  constructor
  · rintro ⟨hmem, hcond⟩
    obtain ⟨hds, u, hu, hmu⟩ := (chunked_whereIn_mem store fk vals d).mp hmem
    refine ⟨hds, ?_⟩
    unfold docMatches at hmu ⊢
    cases hw : getField d.2 fk with
    | none => rw [hw] at hmu; cases hmu
    | some w =>
      rw [hw] at hmu
      obtain ⟨t, rfl⟩ := hstr d hds w hw
      have hkd : hydratedKey d fk = .vStr t :=
        hydratedKey_of_present (hkeys d hds) hw
      rw [hkd] at hcond
      have hts : t = s := by
        simpa [Value.keyOf, Value.isNullish] using hcond
      subst hts
      simp [Value.fsEq]
  · rintro ⟨hds, hmatch⟩
    unfold docMatches at hmatch
    cases hw : getField d.2 fk with
    | none => rw [hw] at hmatch; cases hmatch
    | some w =>
      rw [hw] at hmatch
      have hws : w = .vStr s := (Value.fsEq_vStr_right s w).mp hmatch
      subst hws
      have hkd : hydratedKey d fk = .vStr s :=
        hydratedKey_of_present (hkeys d hds) hw
      refine ⟨(chunked_whereIn_mem store fk vals d).mpr
        ⟨hds, .vStr s, hsv, ?_⟩, ?_⟩
      · unfold docMatches
        rw [hw]
        simp [Value.fsEq]
      · rw [hkd]
        simp [Value.isNullish, Value.keyOf]

/-- Membership characterization of the lazy `ManyToMany.get()` under the
related-store mirror hypothesis: a document is returned iff it is stored
and some pivot row of the parent carries its id in the related-key
column. -/
theorem manyToManyGet_mem (pivotStore relatedStore : List (String × Obj))
    (fk rk lk rlk : String) (m : MInstance)
    (hmirrorR : ∀ d ∈ relatedStore, getField d.2 rlk = some (.vStr d.1))
    (d : String × Obj) :
    d ∈ manyToManyGet pivotStore relatedStore fk rk lk rlk m ↔
      d ∈ relatedStore ∧
        ∃ p ∈ (whereEq pivotStore fk (jsGet m.fields lk)).map
          (fun e => assignObj [("id", Value.vStr e.1)] e.2),
          jsGet p rk = .vStr d.1 := by
  simp only [manyToManyGet]
  set pivots := (whereEq pivotStore fk (jsGet m.fields lk)).map
    (fun e => assignObj [("id", Value.vStr e.1)] e.2) with hpiv
  by_cases hp : pivots.isEmpty = true
  · rw [if_pos hp]
    have hnil : pivots = [] := by
      cases hv : pivots with
      | nil => rfl
      | cons a t => rw [hv] at hp; simp at hp
    simp [hnil]
  · rw [if_neg hp]
    rw [chunked_whereIn_mem]
    constructor
    · rintro ⟨hds, u, hu, hmu⟩
      obtain ⟨p, hpmem, rfl⟩ := List.mem_map.mp hu
      refine ⟨hds, p, hpmem, ?_⟩
      unfold docMatches at hmu
      rw [hmirrorR d hds] at hmu
      exact (Value.fsEq_vStr_iff _ _).mp hmu
    · rintro ⟨hds, p, hpmem, hprk⟩
      refine ⟨hds, jsGet p rk, List.mem_map.mpr ⟨p, hpmem, rfl⟩, ?_⟩
      unfold docMatches
      rw [hmirrorR d hds, hprk]
      simp [Value.fsEq]

/-- The many-to-many analogue of the preload/lazy comparison: with
string-typed pivot foreign keys, unique field names per document, and a
related store that mirrors its document ids in the related-local-key field
(with unique ids), the batched loader assigns an owner with a string local
key exactly the documents its lazy `ManyToMany.get()` fetches (as sets). -/
theorem manyToMany_preload_lazy_equiv
    (pivotStore relatedStore : List (String × Obj))
    (fk rk lk rlk : String)
    (models : List MInstance) (m : MInstance) (s : String)
    (hkeysP : ∀ p ∈ pivotStore, (p.2.map Prod.fst).Nodup)
    (hstrP : ∀ p ∈ pivotStore, ∀ v, getField p.2 fk = some v → ∃ t, v = Value.vStr t)
    (hmirrorR : ∀ d ∈ relatedStore, getField d.2 rlk = some (.vStr d.1))
    (hkeysR : ∀ d ∈ relatedStore, (d.2.map Prod.fst).Nodup)
    (hnodupR : (relatedStore.map Prod.fst).Nodup)
    (hm : m ∈ models)
    (hlk : jsGet m.fields lk = .vStr s)
    (d : String × Obj) :
    d ∈ PreloadManager.manyToManyAssign pivotStore relatedStore fk rk lk rlk models m ↔
      d ∈ manyToManyGet pivotStore relatedStore fk rk lk rlk m := by
  rw [manyToManyGet_mem pivotStore relatedStore fk rk lk rlk m hmirrorR d]
  simp only [PreloadManager.manyToManyAssign]
  rw [hlk]
  set localVals := (models.map (fun p => jsGet p.fields lk)).filter
    (fun v => !v.isNullish) with hlv
  have hsv : Value.vStr s ∈ localVals := by
    rw [hlv]
    exact List.mem_filter.mpr
      ⟨List.mem_map.mpr ⟨m, hm, hlk⟩, by simp [Value.isNullish]⟩
  have hlvne : localVals.isEmpty = false := by
    cases hv : localVals with
    | nil => rw [hv] at hsv; simp at hsv
    | cons a t => rfl
  rw [hlvne]
  simp only [Bool.false_eq_true, if_false]
  set allPivots :=
    ((((chunkList 10 localVals).map (fun c => whereIn pivotStore fk c)).flatten).map
      (fun e => assignObj [("id", Value.vStr e.1)] e.2)) with hap
  have hpivEquiv : ∀ p,
      p ∈ lookupGroup (groupBy allPivots (fun q => jsGet q fk)) (Value.vStr s) ↔
        p ∈ (whereEq pivotStore fk (Value.vStr s)).map
          (fun e => assignObj [("id", Value.vStr e.1)] e.2) := by
    intro p
    rw [lookupGroup_groupBy, List.mem_filter]
    constructor
    · rintro ⟨hpa, hcond⟩
      rw [hap] at hpa
      obtain ⟨e, he, rfl⟩ := List.mem_map.mp hpa
      obtain ⟨hes, u, hu, hmu⟩ := (chunked_whereIn_mem pivotStore fk localVals e).mp he
      unfold docMatches at hmu
      cases hw : getField e.2 fk with
      | none => rw [hw] at hmu; cases hmu
      | some w =>
        rw [hw] at hmu
        obtain ⟨t, rfl⟩ := hstrP e hes w hw
        have hjg : jsGet (assignObj [("id", Value.vStr e.1)] e.2) fk = .vStr t := by
          rw [Obj.jsGet_assignObj _ _ (hkeysP e hes), hw]
        rw [hjg] at hcond
        have hts : t = s := by
          simpa [Value.keyOf, Value.isNullish] using hcond
        subst hts
        apply List.mem_map.mpr
        refine ⟨e, ?_, rfl⟩
        unfold whereEq
        apply List.mem_filter.mpr
        refine ⟨hes, ?_⟩
        unfold docMatches
        rw [hw]
        simp [Value.fsEq]
    · intro hpl
      obtain ⟨e, he, rfl⟩ := List.mem_map.mp hpl
      unfold whereEq at he
      obtain ⟨hes, hmatch⟩ := List.mem_filter.mp he
      unfold docMatches at hmatch
      cases hw : getField e.2 fk with
      | none => rw [hw] at hmatch; cases hmatch
      | some w =>
        rw [hw] at hmatch
        have hws : w = .vStr s := (Value.fsEq_vStr_right s w).mp hmatch
        subst hws
        have hjg : jsGet (assignObj [("id", Value.vStr e.1)] e.2) fk = .vStr s := by
          rw [Obj.jsGet_assignObj _ _ (hkeysP e hes), hw]
        constructor
        · rw [hap]
          apply List.mem_map.mpr
          refine ⟨e, ?_, rfl⟩
          apply (chunked_whereIn_mem pivotStore fk localVals e).mpr
          refine ⟨hes, .vStr s, hsv, ?_⟩
          unfold docMatches
          rw [hw]
          simp [Value.fsEq]
        · rw [hjg]
          simp [Value.isNullish, Value.keyOf]
  by_cases hape : allPivots.isEmpty = true
  · rw [if_pos hape]
    have hapnil : allPivots = [] := by
      cases hv : allPivots with
      | nil => rfl
      | cons a t => rw [hv] at hape; simp at hape
    constructor
    · intro h
      exact absurd h (List.not_mem_nil d)
    · rintro ⟨hds, p, hpl, hprk⟩
      exfalso
      have hpm := (hpivEquiv p).mpr hpl
      rw [lookupGroup_groupBy, List.mem_filter, hapnil] at hpm
      exact absurd hpm.1 (List.not_mem_nil p)
  · rw [if_neg hape]
    rw [List.reduceOption_mem_iff, List.mem_map]
    constructor
    · rintro ⟨p, hpmp, hlook⟩
      obtain ⟨hds, hdv, hprk⟩ :=
        (lookupLast_relIndex_some_iff hmirrorR hkeysR hnodupR _ _ d).mp hlook
      exact ⟨hds, p, (hpivEquiv p).mp hpmp, hprk⟩
    · rintro ⟨hds, p, hpl, hprk⟩
      have hpmp := (hpivEquiv p).mpr hpl
      refine ⟨p, hpmp, ?_⟩
      apply (lookupLast_relIndex_some_iff hmirrorR hkeysR hnodupR _ _ d).mpr
      refine ⟨hds, ?_, hprk⟩
      rw [mem_jsSetDedup]
      apply List.mem_map.mpr
      have hpa : p ∈ allPivots := by
        have hf := hpmp
        rw [lookupGroup_groupBy, List.mem_filter] at hf
        exact hf.1
      exact ⟨p, hpa, hprk⟩

/-- C7 counterexample, two relation variants.  To-one, configured with
owner key `slug`: the related collection holds the document
`("s1", {slug:"other"})` and the owner's foreign key is `"s1"`.  The lazy
path (`BelongsTo.get`) looks the foreign key up as a *document id* —
ignoring the configured owner key — and returns the document; the batched
preload path queries `whereIn("slug", ["s1"])`, matches nothing and assigns
`null`.  The two paths do not produce identical results.  Subcollection
`hasMany`: the batched loader's one-step `relationFactory.call` yields the
factory function rather than a relation instance, so `relation.query()`
throws a `TypeError` and the loader rejects for any nonempty batch — even
when the lazy per-parent subcollection read would succeed — assigning no
result at all. -/
theorem c7_counterexample :
    PreloadManager.belongsToAssign
        [("s1", [("slug", .vStr "other"), ("name", .vStr "A")])] "userId" "slug"
        [⟨[("id", .vStr "p1"), ("userId", .vStr "s1")], [], [], []⟩]
        ⟨[("id", .vStr "p1"), ("userId", .vStr "s1")], [], [], []⟩ = none ∧
    belongsToGet [("s1", [("slug", .vStr "other"), ("name", .vStr "A")])] "userId"
        ⟨[("id", .vStr "p1"), ("userId", .vStr "s1")], [], [], []⟩ =
      some ("s1", [("slug", .vStr "other"), ("name", .vStr "A")]) ∧
    PreloadManager.belongsToAssign
        [("s1", [("slug", .vStr "other"), ("name", .vStr "A")])] "userId" "slug"
        [⟨[("id", .vStr "p1"), ("userId", .vStr "s1")], [], [], []⟩]
        ⟨[("id", .vStr "p1"), ("userId", .vStr "s1")], [], [], []⟩ ≠
      belongsToGet [("s1", [("slug", .vStr "other"), ("name", .vStr "A")])] "userId"
        ⟨[("id", .vStr "p1"), ("userId", .vStr "s1")], [], [], []⟩ ∧
    PreloadManager.loadHasManySubcollection
        (fun _ => [("n1", [("userId", .vStr "p1")])]) "notifications"
        [⟨[("id", .vStr "p1"), ("userId", .vStr "s1")], [], [], []⟩] =
      .error "TypeError: relation.query is not a function" := by
  refine ⟨?_, ?_, ?_, ?_⟩
  · decide
  · decide
  · decide
  · rfl

/-- The to-one (`BelongsTo`) preload/lazy comparison: the batched preload
path assigns an owner exactly the document its lazy `BelongsTo.get()` would
return, *provided* every related document mirrors its document id in the
relation's owner-key field (with unique ids and field names, and nonempty
ids) and the owner's foreign key is a string or null/absent.  Without the
mirror proviso the two paths diverge, because `get()` always resolves the
foreign key as a document id while the preloader queries the owner-key
field. -/
theorem belongsTo_preload_lazy_equiv
    (store : List (String × Obj)) (fk ok : String)
    (models : List MInstance) (m : MInstance)
    (hmirror : ∀ d ∈ store, getField d.2 ok = some (.vStr d.1))
    (hkeys : ∀ d ∈ store, (d.2.map Prod.fst).Nodup)
    (hnodup : (store.map Prod.fst).Nodup)
    (hids : ∀ d ∈ store, d.1 ≠ "")
    (hm : m ∈ models)
    (hfk : (∃ s, jsGet m.fields fk = .vStr s) ∨ jsGet m.fields fk = .vNull ∨
      jsGet m.fields fk = .vUndefined) :
    PreloadManager.belongsToAssign store fk ok models m = belongsToGet store fk m := by
  unfold PreloadManager.belongsToAssign belongsToGet
  show (if (jsSetDedup ((models.map (fun p => jsGet p.fields fk)).filter
        (fun v => !(v.isNullish || Value.strictEq v (.vStr ""))))).isEmpty then none
      else lookupLast ((((chunkList 10 (jsSetDedup ((models.map
          (fun p => jsGet p.fields fk)).filter
          (fun v => !(v.isNullish || Value.strictEq v (.vStr "")))))).map
          (fun c => whereIn store ok c)).flatten).map
        (fun d => (hydratedKey d ok, d))) (jsGet m.fields fk)) =
      (if (jsGet m.fields fk).jsFalsy then none
       else findDoc store (jsGet m.fields fk).asStr)
  set vals := jsSetDedup ((models.map (fun p => jsGet p.fields fk)).filter
      (fun v => !(v.isNullish || Value.strictEq v (.vStr "")))) with hvals
  have hkeyform : ∀ p ∈ (((chunkList 10 vals).map (fun c => whereIn store ok c)).flatten).map
      (fun d => (hydratedKey d ok, d)),
      ∃ d' ∈ store, p.1 = Value.vStr d'.1 ∧ d'.1 ≠ "" := by
    rintro ⟨kv, d⟩ hp
    obtain ⟨d', hd', heq⟩ := List.mem_map.mp hp
    obtain ⟨hd'm, _⟩ := (belongsTo_fetch_mem hmirror vals d').mp hd'
    rw [hydratedKey_mirror hmirror hkeys d' hd'm] at heq
    obtain ⟨hkv, hd2⟩ := Prod.mk.injEq .. ▸ heq
    exact ⟨d', hd'm, hkv.symm, hids d' hd'm⟩
  rcases hfk with ⟨s, hs⟩ | h0 | h0
  · by_cases hse : s = ""
    · subst hse
      rw [hs]
      have hfalsy : (Value.vStr "").jsFalsy = true := by simp [Value.jsFalsy]
      rw [hfalsy, if_pos rfl]
      by_cases hv : vals.isEmpty
      · rw [if_pos hv]
      · rw [if_neg hv]
        apply lookupLast_eq_none
        intro p hp
        obtain ⟨d', _, hk, hne⟩ := hkeyform p hp
        rw [hk]
        simp [Value.strictEq, hne]
    · have hsv : Value.vStr s ∈ vals := by
        rw [hvals, mem_jsSetDedup]
        apply List.mem_filter.mpr
        refine ⟨List.mem_map.mpr ⟨m, hm, hs⟩, ?_⟩
        simp [Value.isNullish, Value.strictEq, hse]
      have hne : vals.isEmpty = false := by
        cases hv : vals with
        | nil => rw [hv] at hsv; simp at hsv
        | cons a t => rfl
      rw [hs]
      have hfalsy : (Value.vStr s).jsFalsy = false := by simp [Value.jsFalsy, hse]
      rw [hfalsy, hne]
      simp only [Bool.false_eq_true, if_false]
      show lookupLast _ (Value.vStr s) = findDoc store s
      exact lookupLast_index_eq_findDoc hmirror hkeys hnodup vals s hsv
  · rw [h0]
    have hfalsy : (Value.vNull).jsFalsy = true := rfl
    rw [hfalsy, if_pos rfl]
    by_cases hv : vals.isEmpty
    · rw [if_pos hv]
    · rw [if_neg hv]
      apply lookupLast_eq_none
      intro p hp
      obtain ⟨d', _, hk, _⟩ := hkeyform p hp
      rw [hk]
      rfl
  · rw [h0]
    have hfalsy : (Value.vUndefined).jsFalsy = true := rfl
    rw [hfalsy, if_pos rfl]
    by_cases hv : vals.isEmpty
    · rw [if_pos hv]
    · rw [if_neg hv]
      apply lookupLast_eq_none
      intro p hp
      obtain ⟨d', _, hk, _⟩ := hkeyform p hp
      rw [hk]
      rfl

/-- C7 (amended): the preload/lazy set equivalence holds variant by
variant under the engine's identifier data model, and fails for the
subcollection variant.  (1) `BelongsTo`: for an owner whose foreign key is
a string or null/absent, the batched loader assigns exactly what the lazy
`get()` returns, provided every related document mirrors its id in the
owner-key field (unique ids and field names, nonempty ids).
(2) Foreign-key `HasMany`: for an owner with a string local key, batched
and lazy results agree as sets when stored foreign keys are string-typed
and field names unique per document.  (3) `ManyToMany`: same-set agreement
for a string-local-key owner when pivot foreign keys are string-typed and
the related store mirrors its ids in the related-local-key field.
(4) Subcollection `hasMany`: no equivalence — the batched loader rejects
with a `TypeError` on every nonempty batch, whatever the lazy per-parent
read would return. -/
theorem c7_preload_lazy_equivalence :
    (∀ (store : List (String × Obj)) (fk ok : String) (models : List MInstance)
        (m : MInstance),
      (∀ d ∈ store, getField d.2 ok = some (.vStr d.1)) →
      (∀ d ∈ store, (d.2.map Prod.fst).Nodup) →
      (store.map Prod.fst).Nodup →
      (∀ d ∈ store, d.1 ≠ "") →
      m ∈ models →
      ((∃ s, jsGet m.fields fk = .vStr s) ∨ jsGet m.fields fk = .vNull ∨
        jsGet m.fields fk = .vUndefined) →
      PreloadManager.belongsToAssign store fk ok models m = belongsToGet store fk m) ∧
    (∀ (store : List (String × Obj)) (fk lk : String) (models : List MInstance)
        (m : MInstance) (s : String),
      (∀ d ∈ store, ∀ v, getField d.2 fk = some v → ∃ t, v = Value.vStr t) →
      (∀ d ∈ store, (d.2.map Prod.fst).Nodup) →
      m ∈ models →
      jsGet m.fields lk = .vStr s →
      ∀ d, d ∈ PreloadManager.hasManyFkAssign store fk lk models m ↔
        d ∈ hasManyForeignKeyGet store fk lk m) ∧
    (∀ (pivotStore relatedStore : List (String × Obj)) (fk rk lk rlk : String)
        (models : List MInstance) (m : MInstance) (s : String),
      (∀ p ∈ pivotStore, (p.2.map Prod.fst).Nodup) →
      (∀ p ∈ pivotStore, ∀ v, getField p.2 fk = some v → ∃ t, v = Value.vStr t) →
      (∀ d ∈ relatedStore, getField d.2 rlk = some (.vStr d.1)) →
      (∀ d ∈ relatedStore, (d.2.map Prod.fst).Nodup) →
      (relatedStore.map Prod.fst).Nodup →
      m ∈ models →
      jsGet m.fields lk = .vStr s →
      ∀ d, d ∈ PreloadManager.manyToManyAssign pivotStore relatedStore
          fk rk lk rlk models m ↔
        d ∈ manyToManyGet pivotStore relatedStore fk rk lk rlk m) ∧
    (∀ (subFetch : MInstance → List (String × Obj)) (relName : String)
        (m : MInstance) (ms : List MInstance),
      PreloadManager.loadHasManySubcollection subFetch relName (m :: ms) =
        .error "TypeError: relation.query is not a function") := by
  refine ⟨?_, ?_, ?_, ?_⟩
  · intro store fk ok models m h1 h2 h3 h4 h5 h6
    exact belongsTo_preload_lazy_equiv store fk ok models m h1 h2 h3 h4 h5 h6
  · intro store fk lk models m s h1 h2 h3 h4 d
    exact hasManyFk_preload_lazy_equiv store fk lk models m s h1 h2 h3 h4 d
  · intro ps rs fk rk lk rlk models m s h1 h2 h3 h4 h5 h6 h7 d
    exact manyToMany_preload_lazy_equiv ps rs fk rk lk rlk models m s
      h1 h2 h3 h4 h5 h6 h7 d
  · intro subFetch relName m ms
    rfl

/-- Witness for C7 (amended): all four parts at one-document stores — a
mirroring `BelongsTo` store, a foreign-key `HasMany` store, a one-pivot
`ManyToMany` pair, and a one-parent subcollection batch. -/
theorem c7_preload_lazy_equivalence_witness :
    (PreloadManager.belongsToAssign
        [("r1", [("id", .vStr "r1"), ("name", .vStr "Bob")])]
        "userId" "id" [⟨[("id", .vStr "p1"), ("userId", .vStr "r1")], [], [], []⟩]
        ⟨[("id", .vStr "p1"), ("userId", .vStr "r1")], [], [], []⟩ =
      belongsToGet [("r1", [("id", .vStr "r1"), ("name", .vStr "Bob")])] "userId"
        ⟨[("id", .vStr "p1"), ("userId", .vStr "r1")], [], [], []⟩) ∧
    (("n1", [("userId", .vStr "p1")]) ∈
        PreloadManager.hasManyFkAssign [("n1", [("userId", .vStr "p1")])]
          "userId" "id" [⟨[("id", .vStr "p1")], [], [], []⟩]
          ⟨[("id", .vStr "p1")], [], [], []⟩ ↔
      ("n1", [("userId", .vStr "p1")]) ∈
        hasManyForeignKeyGet [("n1", [("userId", .vStr "p1")])] "userId" "id"
          ⟨[("id", .vStr "p1")], [], [], []⟩) ∧
    (("r1", [("id", .vStr "r1")]) ∈
        PreloadManager.manyToManyAssign
          [("pv1", [("uid", .vStr "p1"), ("rid", .vStr "r1")])]
          [("r1", [("id", .vStr "r1")])] "uid" "rid" "id" "id"
          [⟨[("id", .vStr "p1")], [], [], []⟩] ⟨[("id", .vStr "p1")], [], [], []⟩ ↔
      ("r1", [("id", .vStr "r1")]) ∈
        manyToManyGet [("pv1", [("uid", .vStr "p1"), ("rid", .vStr "r1")])]
          [("r1", [("id", .vStr "r1")])] "uid" "rid" "id" "id"
          ⟨[("id", .vStr "p1")], [], [], []⟩) ∧
    PreloadManager.loadHasManySubcollection (fun _ => []) "notes"
        [⟨[("id", .vStr "p1")], [], [], []⟩] =
      .error "TypeError: relation.query is not a function" := by
  refine ⟨?_, ?_, ?_, ?_⟩
  · exact c7_preload_lazy_equivalence.1
      [("r1", [("id", .vStr "r1"), ("name", .vStr "Bob")])] "userId" "id"
      [⟨[("id", .vStr "p1"), ("userId", .vStr "r1")], [], [], []⟩]
      ⟨[("id", .vStr "p1"), ("userId", .vStr "r1")], [], [], []⟩
      (by decide) (by decide) (by decide) (by decide) (by decide)
      (Or.inl ⟨"r1", by decide⟩)
  · refine c7_preload_lazy_equivalence.2.1
      [("n1", [("userId", .vStr "p1")])] "userId" "id"
      [⟨[("id", .vStr "p1")], [], [], []⟩] ⟨[("id", .vStr "p1")], [], [], []⟩ "p1"
      ?_ (by decide) (by decide) (by decide) ("n1", [("userId", .vStr "p1")])
    intro d hd v hv
    rw [List.mem_singleton] at hd
    subst hd
    have h0 : getField [("userId", Value.vStr "p1")] "userId" =
        some (Value.vStr "p1") := by decide
    rw [h0] at hv
    exact ⟨"p1", (Option.some_inj.mp hv).symm⟩
  · refine c7_preload_lazy_equivalence.2.2.1
      [("pv1", [("uid", .vStr "p1"), ("rid", .vStr "r1")])]
      [("r1", [("id", .vStr "r1")])] "uid" "rid" "id" "id"
      [⟨[("id", .vStr "p1")], [], [], []⟩] ⟨[("id", .vStr "p1")], [], [], []⟩ "p1"
      (by decide) ?_ (by decide) (by decide) (by decide) (by decide) (by decide)
      ("r1", [("id", .vStr "r1")])
    intro p hp v hv
    rw [List.mem_singleton] at hp
    subst hp
    have h0 : getField [("uid", Value.vStr "p1"), ("rid", Value.vStr "r1")] "uid" =
        some (Value.vStr "p1") := by decide
    rw [h0] at hv
    exact ⟨"p1", (Option.some_inj.mp hv).symm⟩
  · exact c7_preload_lazy_equivalence.2.2.2 (fun _ => []) "notes"
      ⟨[("id", .vStr "p1")], [], [], []⟩ []

/-- C3: The spec (and the repository's own pagination documentation in
`examples/basic-usage.ts`, which promises `offset(n)` and an error when it
is used without `limit`) requires an `offset` operation on the query
builder.  The `QueryBuilder` class defines no such member: calling
`query().offset(10)` fails with a `TypeError` instead of registering an
offset, and no `InvalidOffsetUsage` rejection exists anywhere.  This theorem
records the absence on the embedded method table of the class. -/
theorem c3_offset_not_defined : "offset" ∉ QueryBuilder.methods := by decide

/-- C9: `detach(relatedId)` is idempotent — after one `detach`, a second
`detach` with the same related id matches no pivot rows, removes zero rows
and leaves the pivot collection unchanged (and `detach` has no failure
path). -/
theorem c9_detach_idempotent (pivot : List (String × Obj)) (fk rk : String)
    (lkv : Value) (rid : String) :
    (ManyToMany.detach (ManyToMany.detach pivot fk rk lkv rid).1 fk rk lkv rid).1 =
      (ManyToMany.detach pivot fk rk lkv rid).1 ∧
    (ManyToMany.detach (ManyToMany.detach pivot fk rk lkv rid).1 fk rk lkv rid).2 = 0 ∧
    ManyToMany.detachMatches (ManyToMany.detach pivot fk rk lkv rid).1 fk rk lkv rid = [] := by
  unfold ManyToMany.detach ManyToMany.detachMatches
  refine ⟨?_, ?_, ?_⟩
  · rw [List.filter_filter]
    apply List.filter_congr
    intro x hx
    cases h : (docMatches x.2 fk lkv && docMatches x.2 rk (.vStr rid)) <;> simp [h]
  · simp only [List.length_eq_zero]
    rw [List.filter_filter]
    apply List.filter_eq_nil_iff.mpr
    intro x hx
    cases h : (docMatches x.2 fk lkv && docMatches x.2 rk (.vStr rid)) <;> simp [h]
  · rw [List.filter_filter]
    apply List.filter_eq_nil_iff.mpr
    intro x hx
    cases h : (docMatches x.2 fk lkv && docMatches x.2 rk (.vStr rid)) <;> simp [h]

/-- C6: a non-parallel batch `update`/`delete` matching `M > 0` documents
opens exactly `⌈M / 500⌉` atomic batches (`(M + 499) / 500`), every batch
holds between 1 and 500 operations, the per-chunk counts sum to `M`,
the chunk concatenation is exactly the matched document list (each matched
document receives exactly one operation), and the commit trace is the chunk
sequence in order — chunk `k+1` is only reached after chunk `k`'s commit
resolved, which the ordered trace encodes. -/
theorem c6_batch_chunking (ts : Bool) (coll : String)
    (snapshot : List (String × Obj)) (data : Obj) (w w' : World)
    (hM : 0 < snapshot.length) :
    (QueryBuilder.executeBatches snapshot).length = (snapshot.length + 499) / 500 ∧
    (∀ c ∈ QueryBuilder.executeBatches snapshot, 0 < c.length ∧ c.length ≤ 500) ∧
    ((QueryBuilder.executeBatches snapshot).map List.length).sum = snapshot.length ∧
    (QueryBuilder.executeBatches snapshot).flatten = snapshot ∧
    (QueryBuilder.update ts coll snapshot data false w).1 =
      (QueryBuilder.executeBatches snapshot).map (fun c => .batchCommitEvt c.length) ∧
    (QueryBuilder.update ts coll snapshot data false w).2.1 = snapshot.length ∧
    (QueryBuilder.delete coll snapshot false w').1 =
      (QueryBuilder.executeBatches snapshot).map (fun c => .batchCommitEvt c.length) ∧
    (QueryBuilder.delete coll snapshot false w').2.1 = snapshot.length := by
  have hne : snapshot.isEmpty = false := by
    cases snapshot with
    | nil => simp at hM
    | cons x t => rfl
  have hjoin : (QueryBuilder.executeBatches snapshot).flatten = snapshot :=
    chunkList_join 500 (by omega) snapshot
  refine ⟨chunkList_length 500 (by omega) snapshot, ?_, ?_, hjoin, ?_, ?_, ?_, ?_⟩
  · intro c hc
    exact chunkList_mem_length 500 (by omega) snapshot hc
  · calc ((QueryBuilder.executeBatches snapshot).map List.length).sum
        = (QueryBuilder.executeBatches snapshot).flatten.length :=
          (List.length_flatten _).symm
      _ = snapshot.length := by rw [hjoin]
  · simp [QueryBuilder.update, hne, QueryBuilder.batchTrace]
  · simp [QueryBuilder.update, hne]
  · simp [QueryBuilder.delete, hne, QueryBuilder.batchTrace]
  · simp [QueryBuilder.delete, hne]

/-- Witness for C6 at a concrete two-document snapshot. -/
theorem c6_batch_chunking_witness :
    0 < ([(("d1" : String), ([] : Obj)), ("d2", [])]).length ∧
    (QueryBuilder.executeBatches [(("d1" : String), ([] : Obj)), ("d2", [])]).length =
      (([(("d1" : String), ([] : Obj)), ("d2", [])]).length + 499) / 500 :=
  ⟨by decide, (c6_batch_chunking true "users" [("d1", []), ("d2", [])] [] ⟨[], 0, fun _ => 0, 0, 0⟩
      ⟨[], 0, fun _ => 0, 0, 0⟩ (by decide)).1⟩

/-- C5: with a present identifier, a throwing `beforeDelete` makes `delete()`
reject with exactly that error before any store call — the trace holds the
hook invocation only and the world (hence the stored document) is unchanged;
conversely, with `beforeDelete` passing and `afterDelete` throwing, the
delete is issued and the operation still resolves: the error is logged and
swallowed. -/
theorem c5_delete_hook_failures (coll : String) (hs hs2 : Hooks) (inst : MInstance)
    (w : World) (e e2 : String)
    (hid : (jsGet inst.fields "id").jsFalsy = false)
    (h1 : hs.beforeDelete = some e)
    (h2 : hs2.beforeDelete = none)
    (h3 : hs2.afterDelete = some e2) :
    Model.delete coll hs inst w = ([.hookEvt "beforeDelete"], .error e, w) ∧
    Model.delete coll hs2 inst w =
      ([.hookEvt "beforeDelete", .deleteDocEvt coll (jsGet inst.fields "id").asStr,
        .hookEvt "afterDelete", .logEvt "After delete hook failed"], .ok (),
        w.deleteDocIn coll (jsGet inst.fields "id").asStr) := by
  constructor
  · simp [Model.delete, hid, HookManager.executeBeforeDelete, h1]
  · simp [Model.delete, hid, HookManager.executeBeforeDelete, h2,
      HookManager.executeAfterDelete, h3]

/-- C4: with every lifecycle hook defined and returning normally, a create
runs exactly `beforeSave, beforeCreate, [addDoc], afterCreate, afterSave`;
a save on an existing instance (identifier present, `$original` non-empty)
runs exactly `beforeSave, beforeUpdate, [updateDoc], afterUpdate,
afterSave`; a delete runs exactly `beforeDelete, [deleteDoc], afterDelete` —
each hook exactly once, around the persistence call. -/
theorem c4_hook_ordering (ts : Bool) (coll : String) (hs : Hooks) (data : Obj)
    (inst : MInstance) (w w2 w3 : World)
    (hok : hs.allOk)
    (hid : (jsGet inst.fields "id").jsFalsy = false)
    (horig : inst.original ≠ []) :
    (Model.create ts coll hs data w).1 =
      [.hookEvt "beforeSave", .hookEvt "beforeCreate",
       .addDocEvt coll ("auto-" ++ toString w.nextAutoId),
       .hookEvt "afterCreate", .hookEvt "afterSave"] ∧
    (Model.save ts coll hs inst w2).1 =
      [.hookEvt "beforeSave", .hookEvt "beforeUpdate",
       .updateDocEvt coll (jsGet inst.fields "id").asStr,
       .hookEvt "afterUpdate", .hookEvt "afterSave"] ∧
    (Model.delete coll hs inst w3).1 =
      [.hookEvt "beforeDelete", .deleteDocEvt coll (jsGet inst.fields "id").asStr,
       .hookEvt "afterDelete"] := by
  obtain ⟨hbc, hac, hbs, has, hbu, hau, hbd, had⟩ := hok
  have horig' : inst.original.isEmpty = false := by
    cases h : inst.original with
    | nil => exact absurd h horig
    | cons a t => rfl
  refine ⟨?_, ?_, ?_⟩
  · cases ts <;>
      simp [Model.create, HookManager.executeBeforeCreate,
        HookManager.executeAfterCreate, hbs, hbc, hac, has, World.timestampNow,
        World.addDocIn]
  · cases ts <;>
      simp [Model.save, hid, horig', HookManager.executeBeforeUpdate,
        HookManager.executeAfterUpdate, hbs, hbu, hau, has, World.timestampNow,
        World.newDate,
        Obj.jsGet_setField_ne _ _ _ _ (by decide : ("id" : String) ≠ "updatedAt")]
  · simp [Model.delete, hid, HookManager.executeBeforeDelete,
      HookManager.executeAfterDelete, hbd, had]

/-- Witness for C4 at a concrete hydrated-like instance with id `"u1"` and a
non-empty `$original`. -/
theorem c4_hook_ordering_witness :
    (Model.create true "users" Hooks.noops [("name", .vStr "J")]
        ⟨[], 7, fun _ => 0, 0, 0⟩).1 =
      [.hookEvt "beforeSave", .hookEvt "beforeCreate", .addDocEvt "users" "auto-7",
       .hookEvt "afterCreate", .hookEvt "afterSave"] ∧
    (Model.save true "users" Hooks.noops
        ⟨[("id", .vStr "u1"), ("name", .vStr "J")], [("id", .vStr "u1")], [], []⟩
        ⟨[], 0, fun _ => 0, 0, 0⟩).1 =
      [.hookEvt "beforeSave", .hookEvt "beforeUpdate", .updateDocEvt "users" "u1",
       .hookEvt "afterUpdate", .hookEvt "afterSave"] ∧
    (Model.delete "users" Hooks.noops
        ⟨[("id", .vStr "u1"), ("name", .vStr "J")], [("id", .vStr "u1")], [], []⟩
        ⟨[], 0, fun _ => 0, 0, 0⟩).1 =
      [.hookEvt "beforeDelete", .deleteDocEvt "users" "u1", .hookEvt "afterDelete"] :=
  c4_hook_ordering true "users" Hooks.noops [("name", .vStr "J")]
    ⟨[("id", .vStr "u1"), ("name", .vStr "J")], [("id", .vStr "u1")], [], []⟩
    ⟨[], 7, fun _ => 0, 0, 0⟩ ⟨[], 0, fun _ => 0, 0, 0⟩ ⟨[], 0, fun _ => 0, 0, 0⟩
    (by decide) (by decide) (by decide)

/-- C2: hydration converts store-native `Timestamp` values for
`createdAt`/`updatedAt` into `Date` objects twice — once onto the instance
and once onto the `$original` snapshot — producing two *distinct* `Date`
objects, and the dirty check compares with JavaScript `!==` (reference
inequality for objects).  So `$isDirty()` is `true` immediately after
hydrating a document carrying store-native timestamps, with
`$dirtyFields() = ["createdAt", "updatedAt"]`, contradicting the claim;
a document without such values hydrates clean. -/
theorem c2_hydrate_timestamp_dirty :
    (Model.hydrate "u1"
        [("name", .vStr "John"), ("createdAt", .vTimestamp 0 1000),
         ("updatedAt", .vTimestamp 1 1000)]
        ⟨[], 0, fun _ => 2000, 0, 10⟩).1.isDirty = true ∧
    (Model.hydrate "u1"
        [("name", .vStr "John"), ("createdAt", .vTimestamp 0 1000),
         ("updatedAt", .vTimestamp 1 1000)]
        ⟨[], 0, fun _ => 2000, 0, 10⟩).1.dirtyFields = ["createdAt", "updatedAt"] ∧
    (Model.hydrate "u1" [("name", .vStr "John")]
        ⟨[], 0, fun _ => 2000, 0, 10⟩).1.isDirty = false := by
  refine ⟨?_, ?_, ?_⟩ <;> decide

/-- C8 counterexample: `create` reads `Timestamp.now()` twice; with a clock
that advances between the two reads (here `clock k = k`), the returned
instance carries `createdAt` at instant 0 and `updatedAt` at instant 1 —
both set, but not equal. -/
theorem c8_counterexample :
    jsGet (resultInstance (Model.create true "users" Hooks.noops
        [("name", .vStr "j")] ⟨[], 0, fun k => k, 0, 0⟩).2.1).fields "createdAt" =
      .vDate 2 0 ∧
    jsGet (resultInstance (Model.create true "users" Hooks.noops
        [("name", .vStr "j")] ⟨[], 0, fun k => k, 0, 0⟩).2.1).fields "updatedAt" =
      .vDate 3 1 ∧
    Value.millisOf (jsGet (resultInstance (Model.create true "users" Hooks.noops
        [("name", .vStr "j")] ⟨[], 0, fun k => k, 0, 0⟩).2.1).fields "createdAt") ≠
    Value.millisOf (jsGet (resultInstance (Model.create true "users" Hooks.noops
        [("name", .vStr "j")] ⟨[], 0, fun k => k, 0, 0⟩).2.1).fields "updatedAt") := by
  refine ⟨?_, ?_, ?_⟩ <;> decide

/-- C8 amended: on every create with timestamps enabled (and before-hooks
passing), the returned instance has both `createdAt` and `updatedAt` set;
they carry the operation's first and second clock reading respectively, so
the two instants are equal exactly when the clock does not advance between
the two `Timestamp.now()` calls of the operation. -/
theorem c8_timestamps_set (coll : String) (hs : Hooks) (data : Obj) (w : World)
    (hbs : hs.beforeSave = none) (hbc : hs.beforeCreate = none) :
    ∃ inst r1 r2,
      (Model.create true coll hs data w).2.1 = .ok inst ∧
      jsGet inst.fields "createdAt" = .vDate r1 (w.clock w.tick) ∧
      jsGet inst.fields "updatedAt" = .vDate r2 (w.clock (w.tick + 1)) ∧
      (w.clock w.tick = w.clock (w.tick + 1) →
        Value.millisOf (jsGet inst.fields "createdAt") =
          Value.millisOf (jsGet inst.fields "updatedAt")) := by
  have hbefore : HookManager.executeBeforeCreate hs =
      ([.hookEvt "beforeSave", .hookEvt "beforeCreate"], none) := by
    simp [HookManager.executeBeforeCreate, hbs, hbc]
  simp only [Model.create, hbefore]
  refine ⟨_, w.nextRef + 2, w.nextRef + 3, rfl, ?_, ?_, ?_⟩
  · simp [World.timestampNow, World.addDocIn, World.toDate,
      Obj.jsGet_setField_self, Obj.jsGet_setField_ne, Obj.jsGet_removeField_ne,
      Obj.jsGet, Obj.getField_removeField_ne, Obj.getField_setField_ne]
  · simp [World.timestampNow, World.addDocIn, World.toDate,
      Obj.jsGet_setField_self, Obj.jsGet_setField_ne, Obj.jsGet_removeField_ne,
      Obj.jsGet, Obj.getField_removeField_ne, Obj.getField_setField_ne]
  · intro hclock
    simp [World.timestampNow, World.addDocIn, World.toDate, Value.millisOf,
      Obj.jsGet_setField_self, Obj.jsGet_setField_ne, Obj.jsGet_removeField_ne,
      Obj.jsGet, Obj.getField_removeField_ne, Obj.getField_setField_ne, hclock]

/-- Witness for C8 (amended) with no-op hooks and a constant clock. -/
theorem c8_timestamps_set_witness :
    ∃ inst r1 r2,
      (Model.create true "users" Hooks.noops [("name", .vStr "j")]
          ⟨[], 0, fun _ => 5, 0, 0⟩).2.1 = .ok inst ∧
      jsGet inst.fields "createdAt" =
        .vDate r1 ((fun (_ : Nat) => 5) (0 : Nat)) ∧
      jsGet inst.fields "updatedAt" =
        .vDate r2 ((fun (_ : Nat) => 5) ((0 : Nat) + 1)) ∧
      ((fun (_ : Nat) => 5) (0 : Nat) = (fun (_ : Nat) => 5) ((0 : Nat) + 1) →
        Value.millisOf (jsGet inst.fields "createdAt") =
          Value.millisOf (jsGet inst.fields "updatedAt")) :=
  c8_timestamps_set "users" Hooks.noops [("name", .vStr "j")]
    ⟨[], 0, fun _ => 5, 0, 0⟩ rfl rfl

theorem World.getDocIn_congr_store {w w' : World} (h : w.store = w'.store)
    (coll id : String) : w.getDocIn coll id = w'.getDocIn coll id := by
  unfold World.getDocIn
  rw [h]

theorem World.getDocIn_setDocIn (w : World) (coll id : String) (fields : Obj) :
    (w.setDocIn coll id fields).getDocIn coll id = some fields := by
  unfold World.setDocIn World.getDocIn
  have hp : ((coll, id, fields).1 == coll && (coll, id, fields).2.1 == id) = true := by
    simp
  by_cases h : w.store.any (fun d => d.1 == coll && d.2.1 == id)
  · simp only [h, if_true]
    generalize w.store = l at h
    induction l with
    | nil => simp at h
    | cons a t ih =>
      by_cases ha : (a.1 == coll && a.2.1 == id)
      · simp [List.find?, ha]
      · have h' : t.any (fun d => d.1 == coll && d.2.1 == id) := by
          simpa [List.any_cons, ha] using h
        simpa [List.find?, ha] using ih h'
  · rw [if_neg h]
    show Option.map _ (List.find? _ (w.store ++ [(coll, id, fields)])) = _
    rw [List.find?_append]
    have hnone : w.store.find? (fun d => d.1 == coll && d.2.1 == id) = none := by
      rw [List.find?_eq_none]
      intro x hx
      intro hc
      exact h (List.any_of_mem hx hc)
    simp [hnone, List.find?]

/-- C1 counterexample: at the concrete input `createWithId("custom",
{name:"J"})` versus `create({name:"J"})` with all hooks defined, the
hook-invocation sequence of `createWithId` is empty while `create` invokes
the four lifecycle hooks — `createWithId` does not perform the same hook
invocations as `create`. -/
theorem c1_counterexample :
    hookEvents (Model.createWithId true "users" "custom" [("name", .vStr "J")]
        ⟨[], 0, fun _ => 0, 0, 0⟩).1 = [] ∧
    hookEvents (Model.create true "users" Hooks.noops [("name", .vStr "J")]
        ⟨[], 0, fun _ => 0, 0, 0⟩).1 =
      ["beforeSave", "beforeCreate", "afterCreate", "afterSave"] ∧
    hookEvents (Model.createWithId true "users" "custom" [("name", .vStr "J")]
        ⟨[], 0, fun _ => 0, 0, 0⟩).1 ≠
      hookEvents (Model.create true "users" Hooks.noops [("name", .vStr "J")]
        ⟨[], 0, fun _ => 0, 0, 0⟩).1 := by
  refine ⟨?_, ?_, ?_⟩ <;> decide

/-- C1 amended: `createWithId(id, data)` performs the same payload
construction as `create` — strip `id`, stamp `createdAt`/`updatedAt` from
two clock reads when timestamps are enabled — but applies it to the raw data
object, writes it with the store's set primitive under the caller-supplied
identifier as its only store call, invokes *no* lifecycle hooks, and returns
an instance hydrated from the written payload (carrying the caller-supplied
identifier). -/
theorem Obj.keys_setField (o : Obj) (k : String) (v : Value) :
    (setField o k v).map Prod.fst =
      if k ∈ o.map Prod.fst then o.map Prod.fst else o.map Prod.fst ++ [k] := by
  induction o with
  | nil => simp [setField]
  | cons p t ih =>
    obtain ⟨k₀, w⟩ := p
    by_cases h : k₀ = k
    · subst h
      simp [setField]
    · simp only [setField, h, if_false, List.map_cons]
      rw [ih]
      by_cases hk : k ∈ t.map Prod.fst <;>
        simp [hk, Ne.symm h]

theorem Obj.nodup_keys_setField (o : Obj) (k : String) (v : Value)
    (h : (o.map Prod.fst).Nodup) : ((setField o k v).map Prod.fst).Nodup := by
  rw [Obj.keys_setField]
  by_cases hk : k ∈ o.map Prod.fst
  · simpa [hk] using h
  · rw [if_neg hk]
    simp [List.nodup_append, h, hk]

theorem Obj.nodup_keys_assignObj (target src : Obj)
    (h : (target.map Prod.fst).Nodup) :
    ((assignObj target src).map Prod.fst).Nodup := by
  unfold assignObj
  induction src generalizing target with
  | nil => simpa using h
  | cons p t ih =>
    rw [List.foldl_cons]
    exact ih _ (Obj.nodup_keys_setField _ _ _ h)

theorem Obj.nodup_keys_removeField (o : Obj) (k : String)
    (h : (o.map Prod.fst).Nodup) : ((removeField o k).map Prod.fst).Nodup := by
  unfold removeField
  induction o with
  | nil => simp
  | cons p t ih =>
    rw [List.filter_cons]
    simp only [List.map_cons, List.nodup_cons] at h
    by_cases hp : p.1 = k
    · have hc : (!(p.1 == k)) = false := by simp [hp]
      rw [hc, if_neg (by simp)]
      exact ih h.2
    · have hc : (!(p.1 == k)) = true := by simp [hp]
      rw [hc, if_pos rfl]
      simp only [List.map_cons, List.nodup_cons]
      refine ⟨fun hmem => ?_, ih h.2⟩
      obtain ⟨q, hq, hq2⟩ := List.mem_map.mp hmem
      exact h.1 (List.mem_map.mpr ⟨q, (List.mem_filter.mp hq).1, hq2⟩)

theorem Obj.getField_removeField_self (o : Obj) (k : String) :
    getField (removeField o k) k = none := by
  unfold removeField
  induction o with
  | nil => rfl
  | cons p t ih =>
    rw [List.filter_cons]
    by_cases hp : p.1 = k
    · simpa [hp] using ih
    · obtain ⟨k₀, v⟩ := p
      simp only at hp
      simp [getField, hp, ih]

theorem World.toDate_store (v : Value) (w : World) :
    (World.toDate v w).2.store = w.store := by
  unfold World.toDate
  split <;> rfl

theorem Model.hydrate_store (id : String) (data : Obj) (w : World) :
    (Model.hydrate id data w).2.store = w.store := by
  unfold Model.hydrate
  repeat' split <;> simp [World.toDate_store]

/-- After hydration of a document that carries no `id` field, the instance's
`id` property is the hydrating document id. -/
theorem Model.hydrate_id_field (id : String) (data : Obj) (w : World)
    (hnd : (data.map Prod.fst).Nodup) (hid : getField data "id" = none) :
    jsGet (Model.hydrate id data w).1.fields "id" = .vStr id := by
  unfold Model.hydrate
  repeat' split <;>
    simp [Obj.jsGet_setField_ne _ _ _ _ (show ("id" : String) ≠ "createdAt" by decide),
      Obj.jsGet_setField_ne _ _ _ _ (show ("id" : String) ≠ "updatedAt" by decide),
      Obj.jsGet_assignObj _ _ hnd, hid, Obj.jsGet_setField_self]

theorem c1_createWithId_behavior (coll id : String) (data : Obj) (w : World)
    (hnd : (data.map Prod.fst).Nodup) :
    (Model.createWithId true coll id data w).1 = [.setDocEvt coll id] ∧
    hookEvents (Model.createWithId true coll id data w).1 = [] ∧
    (∃ d, ((Model.createWithId true coll id data w).2.2).getDocIn coll id = some d ∧
      getField d "id" = none ∧
      (∃ r1, getField d "createdAt" = some (.vTimestamp r1 (w.clock w.tick))) ∧
      (∃ r2, getField d "updatedAt" = some (.vTimestamp r2 (w.clock (w.tick + 1)))) ∧
      (∀ k, k ≠ "id" → k ≠ "createdAt" → k ≠ "updatedAt" →
        getField d k = getField data k)) ∧
    jsGet ((Model.createWithId true coll id data w).2.1).fields "id" = .vStr id := by
  have hnd2 : (((removeField (setField (setField (assignObj ([] : Obj) data)
      "createdAt" w.timestampNow.1) "updatedAt" w.timestampNow.2.timestampNow.1)
      "id")).map Prod.fst).Nodup :=
    Obj.nodup_keys_removeField _ _ (Obj.nodup_keys_setField _ _ _
      (Obj.nodup_keys_setField _ _ _ (Obj.nodup_keys_assignObj ([] : Obj) data (by simp))))
  have hid0 : getField (removeField (setField (setField (assignObj ([] : Obj) data)
      "createdAt" w.timestampNow.1) "updatedAt" w.timestampNow.2.timestampNow.1)
      "id") "id" = none :=
    Obj.getField_removeField_self _ _
  have hcre : getField (removeField (setField (setField (assignObj ([] : Obj) data)
      "createdAt" w.timestampNow.1) "updatedAt" w.timestampNow.2.timestampNow.1)
      "id") "createdAt" = some (.vTimestamp w.nextRef (w.clock w.tick)) := by
    rw [Obj.getField_removeField_ne _ _ _ (by decide),
      Obj.getField_setField_ne _ _ _ _ (by decide), Obj.getField_setField_self]
    rfl
  have hupd : getField (removeField (setField (setField (assignObj ([] : Obj) data)
      "createdAt" w.timestampNow.1) "updatedAt" w.timestampNow.2.timestampNow.1)
      "id") "updatedAt" = some (.vTimestamp (w.nextRef + 1) (w.clock (w.tick + 1))) := by
    rw [Obj.getField_removeField_ne _ _ _ (by decide), Obj.getField_setField_self]
    rfl
  refine ⟨rfl, rfl, ⟨_, ?_, hid0, ⟨_, hcre⟩, ⟨_, hupd⟩, ?_⟩, ?_⟩
  · show (Model.hydrate _ _ _).2.getDocIn coll id = _
    rw [World.getDocIn_congr_store (Model.hydrate_store _ _ _)]
    exact World.getDocIn_setDocIn _ coll id _
  · intro k hk1 hk2 hk3
    rw [Obj.getField_removeField_ne _ _ _ hk1, Obj.getField_setField_ne _ _ _ _ hk3,
      Obj.getField_setField_ne _ _ _ _ hk2, Obj.getField_assignObj _ _ hnd]
    cases getField data k <;> rfl
  · exact Model.hydrate_id_field id _ _ hnd2 hid0

/-- Witness for C1 (amended) at `createWithId("custom", {name:"J"})` with a
constant clock at 9. -/
theorem c1_createWithId_behavior_witness :
    (Model.createWithId true "users" "custom" [("name", .vStr "J")]
        ⟨[], 0, fun _ => 9, 0, 0⟩).1 = [.setDocEvt "users" "custom"] ∧
    hookEvents (Model.createWithId true "users" "custom" [("name", .vStr "J")]
        ⟨[], 0, fun _ => 9, 0, 0⟩).1 = [] ∧
    (∃ d, ((Model.createWithId true "users" "custom" [("name", .vStr "J")]
        ⟨[], 0, fun _ => 9, 0, 0⟩).2.2).getDocIn "users" "custom" = some d ∧
      getField d "id" = none ∧
      (∃ r1, getField d "createdAt" = some (.vTimestamp r1 9)) ∧
      (∃ r2, getField d "updatedAt" = some (.vTimestamp r2 9)) ∧
      (∀ k, k ≠ "id" → k ≠ "createdAt" → k ≠ "updatedAt" →
        getField d k = getField [("name", Value.vStr "J")] k)) ∧
    jsGet ((Model.createWithId true "users" "custom" [("name", .vStr "J")]
        ⟨[], 0, fun _ => 9, 0, 0⟩).2.1).fields "id" = .vStr "custom" :=
  c1_createWithId_behavior "users" "custom" [("name", .vStr "J")]
    ⟨[], 0, fun _ => 9, 0, 0⟩ (by decide)

/-- C10: the claim's invariant is the loaders' evident intent (spec §4.4
resolves the subcollection relation per parent and assigns it), and the
to-one, to-many-by-foreign-key and pivot loaders do assign-and-mark every
entity in every branch — but `loadHasManySubcollection` cannot: it invokes
the static relation method in one step (`relationFactory.call(ModelClass,
model)`), receives the relation *factory function* back, and
`relation.query()` throws a `TypeError` for every parent (the dispatching
`loadRelation` in the same file shows the correct two-step call).  On every
nonempty batch the loader rejects before any query or assignment, so no
entity is assigned or marked — the code contradicts the claim and the
spec's intent. -/
theorem c10_subcollection_loader_always_rejects
    (subFetch : MInstance → List (String × Obj)) (relName : String)
    (m : MInstance) (ms : List MInstance) :
    PreloadManager.loadHasManySubcollection subFetch relName (m :: ms) =
      .error "TypeError: relation.query is not a function" := rfl

/-- Witness for C5: an `Order`-like instance with id `"o1"`, a throwing
`beforeDelete` on one hook set and a throwing `afterDelete` on the other. -/
theorem c5_delete_hook_failures_witness :
    Model.delete "orders" ⟨none, none, none, none, none, none, some "boom", none⟩
      ⟨[("id", .vStr "o1")], [], [], []⟩ ⟨[("orders", "o1", [])], 0, fun _ => 0, 0, 0⟩ =
      ([.hookEvt "beforeDelete"], .error "boom", ⟨[("orders", "o1", [])], 0, fun _ => 0, 0, 0⟩) ∧
    Model.delete "orders" ⟨none, none, none, none, none, none, none, some "late"⟩
      ⟨[("id", .vStr "o1")], [], [], []⟩ ⟨[("orders", "o1", [])], 0, fun _ => 0, 0, 0⟩ =
      ([.hookEvt "beforeDelete", .deleteDocEvt "orders" "o1",
        .hookEvt "afterDelete", .logEvt "After delete hook failed"], .ok (),
        World.deleteDocIn ⟨[("orders", "o1", [])], 0, fun _ => 0, 0, 0⟩ "orders" "o1") :=
  c5_delete_hook_failures "orders"
    ⟨none, none, none, none, none, none, some "boom", none⟩
    ⟨none, none, none, none, none, none, none, some "late"⟩
    ⟨[("id", .vStr "o1")], [], [], []⟩ ⟨[("orders", "o1", [])], 0, fun _ => 0, 0, 0⟩
    "boom" "late" (by decide) rfl rfl rfl

end FirebaseLucid
